import Mathlib

/-!
# SDSQL — a verification development of the core of the repository

This file gives a shallow embedding, in Lean 4, of the parts of the SDSQL
C++ code base that the specification's checkable claims are about:

* the byte-level codec (`Serializer` write primitives and the cursor-based
  `Deserializer` of `include/network/serializer.hpp` and its implementation);
* the framed wire protocol (`MessageHeader`, `Message::serialize`,
  `Message::deserialize`, the per-variant payload codecs of
  `src/network/protocol.cpp` and `src/network/query.cpp`);
* the in-memory query engine: table model, the WHERE-condition evaluator
  (`DMLHelpers::evaluateCondition` / `evaluateSingleComparison`), the
  `DMLOperations` insert overloads with the primary-key check, the
  transaction log and the reverse-undo rollback;
* the session layer of `driver/server_main.cpp` (token issue and
  validation, `handleLogin` / `handleQuery` / `executeQuery`);
* the table persistence round trip (`saveTableToFile` / `loadTableFromFile`
  of `src/server/Database.cpp`) and the permission check
  (`User::hasPermission`, `checkPermissionInternal`).

Modelling conventions:

* C++ `std::string` is modelled as a list of byte values (`CppStr`, a
  `List Nat` whose members are meant to be `< 256`); machine integers are
  `Nat` with explicit reduction modulo `2 ^ w` where the code truncates.
* Console and log-file output of the C++ code (`std::cout`, `std::cerr`,
  the transaction log file writes of the append-only drafts) does not
  affect the data the claims are about and is elided.
* Fallible C++ code (`std::expected`, exceptions) is modelled with
  `Except`; functions that mutate an object are modelled by explicit state
  passing, returning the new state next to the result.
-/

/-! ## Byte-level helpers -/

/-- A C++ `std::string` / byte buffer: a list of byte values. -/
abbrev CppStr := List Nat

/-- Build a `CppStr` from a Lean string literal (ASCII bytes). -/
def cpp (s : String) : CppStr := s.toList.map Char.toNat

/-- Big-endian value of a byte list (how `ntohl`/`ntohs` read what
`htonl`/`htons` wrote). -/
def beVal (bs : List Nat) : Nat := bs.foldl (fun acc b => acc * 256 + b) 0

/-- The two big-endian bytes `htons` produces for `v` (truncated to 16 bits). -/
def u16be (v : Nat) : List Nat :=
  [v % 2 ^ 16 / 2 ^ 8, v % 2 ^ 8]

/-- The four big-endian bytes `htonl` produces for `v` (truncated to 32 bits). -/
def u32be (v : Nat) : List Nat :=
  [v % 2 ^ 32 / 2 ^ 24, v % 2 ^ 24 / 2 ^ 16, v % 2 ^ 16 / 2 ^ 8, v % 2 ^ 8]

/-- `Serializer::writeU64`: two big-endian `u32`s, high half then low half. -/
def u64be (v : Nat) : List Nat :=
  u32be (v % 2 ^ 64 / 2 ^ 32) ++ u32be (v % 2 ^ 32)

/-- `Serializer::writeU8`: one byte (the `uint8_t` argument value). -/
def u8byte (v : Nat) : List Nat := [v % 2 ^ 8]

/-- `Serializer::writeString`: a `u32` byte length followed by the raw bytes. -/
def wstr (s : CppStr) : List Nat := u32be s.length ++ s

@[simp] theorem u32be_length (v : Nat) : (u32be v).length = 4 := rfl

@[simp] theorem u64be_length (v : Nat) : (u64be v).length = 8 := rfl

@[simp] theorem wstr_length (s : CppStr) : (wstr s).length = 4 + s.length := by
  simp [wstr, u32be]; omega

theorem beVal_u32be {v : Nat} (h : v < 2 ^ 32) : beVal (u32be v) = v := by
  simp only [u32be, beVal, List.foldl]
  omega

theorem beVal_u16be {v : Nat} (h : v < 2 ^ 16) : beVal (u16be v) = v := by
  simp only [u16be, beVal, List.foldl]
  omega

/-! ## The `Deserializer` (cursor-based reader with bounds checks) -/

/-- `SerializationError` of `include/network/serializer.hpp`. -/
inductive SerializationError where
  | BUFFER_OVERFLOW
  | INSUFFICIENT_DATA
  | INVALID_FORMAT
  | STRING_TOO_LONG
deriving DecidableEq, Repr

/-- The `Deserializer`: a borrowed byte buffer and a moving cursor. -/
structure Deserializer where
  buffer : List Nat
  position : Nat
deriving DecidableEq, Repr

namespace Deserializer

/-- `Deserializer::remaining`. -/
def remaining (d : Deserializer) : Nat := d.buffer.length - d.position

/-- `Deserializer::hasRemaining`. -/
def hasRemaining (d : Deserializer) (bytes : Nat) : Bool :=
  bytes ≤ d.remaining

/-- The `count` bytes at the cursor (what `memcpy(…, buffer.data() + position,
count)` copies; in-bounds at every use because of the `hasRemaining` guard). -/
def bytesAt (d : Deserializer) (count : Nat) : List Nat :=
  (d.buffer.drop d.position).take count

/-- Advance the cursor (`position += n`). -/
def advance (d : Deserializer) (n : Nat) : Deserializer :=
  { d with position := d.position + n }

/-- `Deserializer::readU8`. On failure the deserializer is returned unchanged
(the C++ method returns before touching `position`). -/
def readU8 (d : Deserializer) : Except SerializationError Nat × Deserializer :=
  if d.hasRemaining 1 then (.ok (beVal (d.bytesAt 1)), d.advance 1)
  else (.error .INSUFFICIENT_DATA, d)

/-- `Deserializer::readU16` (`ntohs` of the two bytes at the cursor). -/
def readU16 (d : Deserializer) : Except SerializationError Nat × Deserializer :=
  if d.hasRemaining 2 then (.ok (beVal (d.bytesAt 2)), d.advance 2)
  else (.error .INSUFFICIENT_DATA, d)

/-- `Deserializer::readU32` (`ntohl` of the four bytes at the cursor). -/
def readU32 (d : Deserializer) : Except SerializationError Nat × Deserializer :=
  if d.hasRemaining 4 then (.ok (beVal (d.bytesAt 4)), d.advance 4)
  else (.error .INSUFFICIENT_DATA, d)

/-- `Deserializer::readU64` (`ntohl` of the high four bytes shifted up,
or-ed with `ntohl` of the low four bytes). -/
def readU64 (d : Deserializer) : Except SerializationError Nat × Deserializer :=
  if d.hasRemaining 8 then
    (.ok (beVal ((d.bytesAt 8).take 4) * 2 ^ 32 + beVal ((d.bytesAt 8).drop 4)),
     d.advance 8)
  else (.error .INSUFFICIENT_DATA, d)

/-- `MAX_STRING_LENGTH` of `Deserializer::readString`: 1 MiB. -/
def MAX_STRING_LENGTH : Nat := 1024 * 1024

/-- `Deserializer::readString`: `u32` length, a 1 MiB sanity bound, then the
raw bytes. -/
def readString (d : Deserializer) :
    Except SerializationError CppStr × Deserializer :=
  match d.readU32 with
  | (.ok length, d') =>
    if length > MAX_STRING_LENGTH then (.error .STRING_TOO_LONG, d')
    else if d'.hasRemaining length then
      (.ok (d'.bytesAt length), d'.advance length)
    else (.error .INSUFFICIENT_DATA, d')
  | (.error e, d') => (.error e, d')

/-- `Deserializer::readBytes`. -/
def readBytes (d : Deserializer) (count : Nat) :
    Except SerializationError (List Nat) × Deserializer :=
  if d.hasRemaining count then (.ok (d.bytesAt count), d.advance count)
  else (.error .INSUFFICIENT_DATA, d)

/-- `Deserializer::readBytesView` (same bytes as `readBytes`, borrowed). -/
def readBytesView (d : Deserializer) (count : Nat) :
    Except SerializationError (List Nat) × Deserializer :=
  if d.hasRemaining count then (.ok (d.bytesAt count), d.advance count)
  else (.error .INSUFFICIENT_DATA, d)

/-- `Deserializer::skip`. -/
def skip (d : Deserializer) (bytes : Nat) :
    Except SerializationError Unit × Deserializer :=
  if d.hasRemaining bytes then (.ok (), d.advance bytes)
  else (.error .INSUFFICIENT_DATA, d)

/-- `Deserializer::peekU8` (no cursor movement). -/
def peekU8 (d : Deserializer) : Except SerializationError Nat :=
  if d.hasRemaining 1 then .ok (beVal (d.bytesAt 1))
  else .error .INSUFFICIENT_DATA

/-- `Deserializer::peekU32` (no cursor movement). -/
def peekU32 (d : Deserializer) : Except SerializationError Nat :=
  if d.hasRemaining 4 then .ok (beVal (d.bytesAt 4))
  else .error .INSUFFICIENT_DATA

end Deserializer

/-- C10: whenever `readU8`, `readU16`, `readU32`, `readU64`, `readBytes`,
`readBytesView` or `skip` returns an error, the cursor position is unchanged:
a failed primitive read consumes no bytes, so the caller may retry or read a
different field from the same position. -/
theorem deserializer_failed_read_keeps_position (d : Deserializer) (count : Nat)
    (e : SerializationError) :
    ((d.readU8.1 = .error e → d.readU8.2.position = d.position) ∧
     (d.readU16.1 = .error e → d.readU16.2.position = d.position)) ∧
    ((d.readU32.1 = .error e → d.readU32.2.position = d.position) ∧
     (d.readU64.1 = .error e → d.readU64.2.position = d.position)) ∧
    (((d.readBytes count).1 = .error e →
        (d.readBytes count).2.position = d.position) ∧
     ((d.readBytesView count).1 = .error e →
        (d.readBytesView count).2.position = d.position)) ∧
    ((d.skip count).1 = .error e → (d.skip count).2.position = d.position) := by
  refine ⟨⟨?_, ?_⟩, ⟨?_, ?_⟩, ⟨?_, ?_⟩, ?_⟩ <;>
    · intro h
      simp only [Deserializer.readU8, Deserializer.readU16, Deserializer.readU32,
        Deserializer.readU64, Deserializer.readBytes, Deserializer.readBytesView,
        Deserializer.skip] at h ⊢
      split at h <;> simp_all

/-- Witness for C10: on an empty one-byte-request deserializer every listed
primitive fails with `INSUFFICIENT_DATA` and leaves the cursor at 0. -/
theorem deserializer_failed_read_keeps_position_witness :
    (Deserializer.mk [] 0).readU8.2.position = 0 ∧
    ((Deserializer.mk [] 0).readBytes 1).2.position = 0 ∧
    ((Deserializer.mk [] 0).skip 1).2.position = 0 := by
  refine ⟨?_, ?_, ?_⟩
  · exact ((deserializer_failed_read_keeps_position ⟨[], 0⟩ 1
      .INSUFFICIENT_DATA).1.1 (by rfl))
  · exact ((deserializer_failed_read_keeps_position ⟨[], 0⟩ 1
      .INSUFFICIENT_DATA).2.2.1.1 (by rfl))
  · exact ((deserializer_failed_read_keeps_position ⟨[], 0⟩ 1
      .INSUFFICIENT_DATA).2.2.2 (by rfl))

/-! ## The framed wire protocol (`src/network/protocol.cpp`, `query.cpp`) -/

namespace NET

/-- `ProtocolError` of `include/net/protocol.hpp`. -/
inductive ProtocolError where
  | INVALID_MAGIC_NUMBER
  | INVALID_MESSAGE_TYPE
  | PAYLOAD_SIZE_MISMATCH
  | DESERIALIZATION_FAILED
deriving DecidableEq, Repr

/-- `MessageHeader::MAGIC_NUMBER`. -/
def MAGIC_NUMBER : Nat := 0xDEADBEEF

/-- `NET::LiteralValue`. The `DataType` member is an `enum class` with a
`uint8_t` underlying type; it is modelled by its numeric value
(`INT = 0x01, DOUBLE = 0x02, STRING = 0x03, BOOL = 0x04`). -/
structure LiteralValue where
  type : Nat
  value : CppStr
deriving DecidableEq, Repr

/-- `NET::ColumnDefinition`. -/
structure ColumnDefinition where
  name : CppStr
  type : Nat
  is_primary_key : Bool
deriving DecidableEq, Repr

/-- `NET::WhereCondition`. -/
structure WhereCondition where
  column : CppStr
  operator_str : CppStr
  value : LiteralValue
deriving DecidableEq, Repr

/-- `NET::SetClause`. -/
structure SetClause where
  column : CppStr
  value : LiteralValue
deriving DecidableEq, Repr

/-- The fields of `NET::QueryRequest`. `operation` is the `uint8_t` value of
the `OperationType` enum. -/
structure QueryRequestData where
  operation : Nat
  session_token : CppStr
  database_name : CppStr
  table_name : CppStr
  columns : List ColumnDefinition
  select_columns : List CppStr
  insert_values : List LiteralValue
  update_clauses : List SetClause
  where_condition : Option WhereCondition
deriving DecidableEq, Repr

/-- `NET::QueryResponse::Row`. -/
structure ResponseRow where
  columns : List CppStr
deriving DecidableEq, Repr

/-- The fields of `NET::QueryResponse`. -/
structure QueryResponseData where
  column_names : List CppStr
  rows : List ResponseRow
  success : Bool
  error_message : CppStr
deriving DecidableEq, Repr

/-- The eight message variants of the protocol, with the fields each
variant's class carries. -/
inductive Msg where
  | loginRequest (username password : CppStr)
  | loginSuccess (session_token : CppStr) (user_id : Nat)
  | loginFailure (error_message : CppStr)
  | queryRequest (q : QueryRequestData)
  | queryResponse (r : QueryResponseData)
  | pingRequest (timestamp : Nat)
  | pongResponse (original_timestamp server_timestamp : Nat)
  | errorResponse (error_message : CppStr) (error_code : Nat)
deriving DecidableEq, Repr

/-- The `MessageType` discriminator byte of each variant. -/
def Msg.typeByte : Msg → Nat
  | .loginRequest _ _ => 0x10
  | .loginSuccess _ _ => 0x11
  | .loginFailure _ => 0x12
  | .queryRequest _ => 0x20
  | .queryResponse _ => 0x21
  | .pingRequest _ => 0x30
  | .pongResponse _ _ => 0x31
  | .errorResponse _ _ => 0x99

/-- `LiteralValue::serialize`. -/
def LiteralValue.enc (l : LiteralValue) : List Nat :=
  u8byte l.type ++ wstr l.value

/-- `ColumnDefinition::serialize`. -/
def ColumnDefinition.enc (c : ColumnDefinition) : List Nat :=
  wstr c.name ++ (u8byte c.type ++ u8byte (if c.is_primary_key then 1 else 0))

/-- `WhereCondition::serialize`. -/
def WhereCondition.enc (w : WhereCondition) : List Nat :=
  wstr w.column ++ (wstr w.operator_str ++ w.value.enc)

/-- `SetClause::serialize`. -/
def SetClause.enc (s : SetClause) : List Nat :=
  wstr s.column ++ s.value.enc

/-- A `u32` element count followed by the serialized elements (the
`writeU32(size)` + loop pattern used throughout the payload writers). -/
def encCounted (enc : α → List Nat) (xs : List α) : List Nat :=
  u32be xs.length ++ (xs.map enc).flatten

/-- `QueryRequest::serializePayload`. -/
def QueryRequestData.payload (q : QueryRequestData) : List Nat :=
  u8byte q.operation ++
  (wstr q.session_token ++
  (wstr q.database_name ++
  (wstr q.table_name ++
  (encCounted ColumnDefinition.enc q.columns ++
  (encCounted wstr q.select_columns ++
  (encCounted LiteralValue.enc q.insert_values ++
  (encCounted SetClause.enc q.update_clauses ++
  (match q.where_condition with
    | some w => u8byte 1 ++ w.enc
    | none => u8byte 0))))))))

/-- `QueryResponse::serializePayload`. -/
def QueryResponseData.payload (r : QueryResponseData) : List Nat :=
  u8byte (if r.success then 1 else 0) ++
  (if r.success then
    encCounted wstr r.column_names ++
    encCounted (fun row => encCounted wstr row.columns) r.rows
  else wstr r.error_message)

/-- `Message::serializePayload`, by variant. -/
def Msg.payloadBytes : Msg → List Nat
  | .loginRequest u p => wstr u ++ wstr p
  | .loginSuccess t uid => wstr t ++ u32be uid
  | .loginFailure msg => wstr msg
  | .queryRequest q => q.payload
  | .queryResponse r => r.payload
  | .pingRequest ts => u64be ts
  | .pongResponse o s => u64be o ++ u64be s
  | .errorResponse msg code => wstr msg ++ u32be code

/-- `Message::serialize`: the payload is serialized first so that
`payload_size` is exact, then the 9-byte header
(`magic, type, payload_size`) is written, then the payload bytes. -/
def Msg.serialize (m : Msg) : List Nat :=
  u32be MAGIC_NUMBER ++
  (u8byte m.typeByte ++ (u32be m.payloadBytes.length ++ m.payloadBytes))

/-! ### Payload decoders

The payload readers of the message classes run on the shared `Deserializer`
cursor; every failing primitive read is reported as
`DESERIALIZATION_FAILED`, and nested structure decoders propagate their own
error value. -/

/-- The type of a payload decoder: it consumes bytes from the cursor and
either produces a value and the advanced deserializer or a protocol error. -/
abbrev PDecoder (α : Type) := Deserializer → Except ProtocolError (α × Deserializer)

/-- Sequencing of payload decoding steps (the early-return style of the
`deserializePayload` bodies). -/
def pthen (p : PDecoder α) (k : α → PDecoder β) : PDecoder β := fun d =>
  match p d with
  | .ok (a, d') => k a d'
  | .error e => .error e

/-- A decoding step that consumes nothing. -/
def ppure (a : α) : PDecoder α := fun d => .ok (a, d)

/-- A `readU8` call whose failure is reported as `DESERIALIZATION_FAILED`. -/
def rdU8 : PDecoder Nat := fun d =>
  match d.readU8 with
  | (.ok v, d') => .ok (v, d')
  | (.error _, _) => .error .DESERIALIZATION_FAILED

/-- A `readU32` call whose failure is reported as `DESERIALIZATION_FAILED`. -/
def rdU32 : PDecoder Nat := fun d =>
  match d.readU32 with
  | (.ok v, d') => .ok (v, d')
  | (.error _, _) => .error .DESERIALIZATION_FAILED

/-- A `readU64` call whose failure is reported as `DESERIALIZATION_FAILED`. -/
def rdU64 : PDecoder Nat := fun d =>
  match d.readU64 with
  | (.ok v, d') => .ok (v, d')
  | (.error _, _) => .error .DESERIALIZATION_FAILED

/-- A `readString` call whose failure is reported as
`DESERIALIZATION_FAILED`. -/
def rdStr : PDecoder CppStr := fun d =>
  match d.readString with
  | (.ok s, d') => .ok (s, d')
  | (.error _, _) => .error .DESERIALIZATION_FAILED

/-- The `for (uint32_t i = 0; i < count; ++i)` element-reading loops. -/
def rdCount (n : Nat) (p : PDecoder α) : PDecoder (List α) :=
  match n with
  | 0 => ppure []
  | n + 1 => pthen p fun x => pthen (rdCount n p) fun xs => ppure (x :: xs)

/-- `LiteralValue::deserialize`. -/
def LiteralValue.deserialize : PDecoder LiteralValue :=
  pthen rdU8 fun t => pthen rdStr fun v => ppure ⟨t, v⟩

/-- `ColumnDefinition::deserialize`. -/
def ColumnDefinition.deserialize : PDecoder ColumnDefinition :=
  pthen rdStr fun n => pthen rdU8 fun t => pthen rdU8 fun pk =>
    ppure ⟨n, t, pk ≠ 0⟩

/-- `WhereCondition::deserialize`. -/
def WhereCondition.deserialize : PDecoder WhereCondition :=
  pthen rdStr fun col => pthen rdStr fun op =>
    pthen LiteralValue.deserialize fun v => ppure ⟨col, op, v⟩

/-- `SetClause::deserialize`. -/
def SetClause.deserialize : PDecoder SetClause :=
  pthen rdStr fun col => pthen LiteralValue.deserialize fun v => ppure ⟨col, v⟩

/-- `LoginRequest::deserializePayload`. -/
def pdLoginRequest : PDecoder Msg :=
  pthen rdStr fun u => pthen rdStr fun p => ppure (.loginRequest u p)

/-- `LoginSuccess::deserializePayload`. -/
def pdLoginSuccess : PDecoder Msg :=
  pthen rdStr fun t => pthen rdU32 fun uid => ppure (.loginSuccess t uid)

/-- `LoginFailure::deserializePayload`. -/
def pdLoginFailure : PDecoder Msg :=
  pthen rdStr fun msg => ppure (.loginFailure msg)

/-- `QueryRequest::deserializePayload`. -/
def pdQueryRequest : PDecoder Msg :=
  pthen rdU8 fun op =>
  pthen rdStr fun tok =>
  pthen rdStr fun db =>
  pthen rdStr fun tbl =>
  pthen rdU32 fun ncols =>
  pthen (rdCount ncols ColumnDefinition.deserialize) fun cols =>
  pthen rdU32 fun nsel =>
  pthen (rdCount nsel rdStr) fun sels =>
  pthen rdU32 fun nins =>
  pthen (rdCount nins LiteralValue.deserialize) fun inss =>
  pthen rdU32 fun nupd =>
  pthen (rdCount nupd SetClause.deserialize) fun upds =>
  pthen rdU8 fun hasW =>
  if hasW ≠ 0 then
    pthen WhereCondition.deserialize fun w =>
      ppure (.queryRequest ⟨op, tok, db, tbl, cols, sels, inss, upds, some w⟩)
  else ppure (.queryRequest ⟨op, tok, db, tbl, cols, sels, inss, upds, none⟩)

/-- `QueryResponse::deserializePayload` (on the success path the
freshly-created message keeps its empty `error_message`; on the failure
path it keeps its empty column and row vectors). -/
def pdQueryResponse : PDecoder Msg :=
  pthen rdU8 fun s =>
  if s ≠ 0 then
    pthen rdU32 fun ncols =>
    pthen (rdCount ncols rdStr) fun cols =>
    pthen rdU32 fun nrows =>
    pthen (rdCount nrows
      (pthen rdU32 fun ncells =>
       pthen (rdCount ncells rdStr) fun cells => ppure (⟨cells⟩ : ResponseRow)))
      fun rows =>
    ppure (.queryResponse ⟨cols, rows, true, []⟩)
  else
    pthen rdStr fun msg => ppure (.queryResponse ⟨[], [], false, msg⟩)

/-- `PingRequest::deserializePayload`. -/
def pdPingRequest : PDecoder Msg :=
  pthen rdU64 fun ts => ppure (.pingRequest ts)

/-- `PongResponse::deserializePayload`. -/
def pdPongResponse : PDecoder Msg :=
  pthen rdU64 fun o => pthen rdU64 fun s => ppure (.pongResponse o s)

/-- `ErrorResponse::deserializePayload`. -/
def pdErrorResponse : PDecoder Msg :=
  pthen rdStr fun msg => pthen rdU32 fun code => ppure (.errorResponse msg code)

/-- `MessageFactory::createMessage`, fused with the variant's payload
decoder: maps the type byte to the decoder of the corresponding default
message, `INVALID_MESSAGE_TYPE` for every unknown byte. -/
def messageFactory (t : Nat) : Except ProtocolError (PDecoder Msg) :=
  if t = 0x10 then .ok pdLoginRequest
  else if t = 0x11 then .ok pdLoginSuccess
  else if t = 0x12 then .ok pdLoginFailure
  else if t = 0x20 then .ok pdQueryRequest
  else if t = 0x21 then .ok pdQueryResponse
  else if t = 0x30 then .ok pdPingRequest
  else if t = 0x31 then .ok pdPongResponse
  else if t = 0x99 then .ok pdErrorResponse
  else .error .INVALID_MESSAGE_TYPE

/-- `Message::deserialize`: reject inputs shorter than the 9-byte header,
read and verify the header, check that the full payload is present, create
the message by type and run its payload decoder on the same cursor. -/
def Msg.deserialize (data : List Nat) : Except ProtocolError Msg :=
  if data.length < 9 then .error .DESERIALIZATION_FAILED
  else
    match (Deserializer.mk data 0).readU32 with
    | (.error _, _) => .error .DESERIALIZATION_FAILED
    | (.ok magic, d1) =>
      if magic ≠ MAGIC_NUMBER then .error .INVALID_MAGIC_NUMBER
      else
        match d1.readU8 with
        | (.error _, _) => .error .DESERIALIZATION_FAILED
        | (.ok t, d2) =>
          match d2.readU32 with
          | (.error _, _) => .error .DESERIALIZATION_FAILED
          | (.ok payload_size, d3) =>
            if data.length < 9 + payload_size then
              .error .PAYLOAD_SIZE_MISMATCH
            else
              match messageFactory t with
              | .error e => .error e
              | .ok pd =>
                match pd d3 with
                | .ok (m, _) => .ok m
                | .error e => .error e

end NET

/-! ### Reader-of-writer lemmas for the byte primitives -/

@[simp] theorem Deserializer.advance_zero (d : Deserializer) : d.advance 0 = d := by
  cases d; simp [Deserializer.advance]

@[simp] theorem Deserializer.advance_advance (d : Deserializer) (a b : Nat) :
    (d.advance a).advance b = d.advance (a + b) := by
  cases d; simp [Deserializer.advance, Nat.add_assoc]

@[simp] theorem Deserializer.buffer_advance (d : Deserializer) (a : Nat) :
    (d.advance a).buffer = d.buffer := rfl

@[simp] theorem Deserializer.position_advance (d : Deserializer) (a : Nat) :
    (d.advance a).position = d.position + a := rfl

theorem Deserializer.remaining_eq (d : Deserializer) :
    d.remaining = (d.buffer.drop d.position).length := by
  simp [Deserializer.remaining]

theorem Deserializer.hasRemaining_of_drop {d : Deserializer} {bs C : List Nat}
    (h : d.buffer.drop d.position = bs ++ C) {n : Nat} (hn : n ≤ bs.length) :
    d.hasRemaining n = true := by
  simp [Deserializer.hasRemaining, Deserializer.remaining_eq, h]
  omega

theorem Deserializer.bytesAt_of_drop {d : Deserializer} {bs C : List Nat}
    (h : d.buffer.drop d.position = bs ++ C) :
    d.bytesAt bs.length = bs := by
  simp [Deserializer.bytesAt, h, List.take_left]

theorem Deserializer.readU8_eval {d : Deserializer} {b : Nat} {C : List Nat}
    (h : d.buffer.drop d.position = b :: C) :
    d.readU8 = (.ok b, d.advance 1) := by
  have h' : d.buffer.drop d.position = [b] ++ C := by simpa using h
  rw [Deserializer.readU8, Deserializer.hasRemaining_of_drop h' (by simp)]
  have := Deserializer.bytesAt_of_drop h'
  simp only [List.length_cons, List.length_nil] at this
  simp [this, beVal]

theorem Deserializer.readU32_eval {d : Deserializer} {v : Nat} {C : List Nat}
    (hv : v < 2 ^ 32) (h : d.buffer.drop d.position = u32be v ++ C) :
    d.readU32 = (.ok v, d.advance 4) := by
  rw [Deserializer.readU32, Deserializer.hasRemaining_of_drop h (by simp)]
  have := Deserializer.bytesAt_of_drop h
  simp only [u32be_length] at this
  simp [this, beVal_u32be hv]

theorem Deserializer.readU64_eval {d : Deserializer} {v : Nat} {C : List Nat}
    (hv : v < 2 ^ 64) (h : d.buffer.drop d.position = u64be v ++ C) :
    d.readU64 = (.ok v, d.advance 8) := by
  rw [Deserializer.readU64, Deserializer.hasRemaining_of_drop h (by simp)]
  have hb := Deserializer.bytesAt_of_drop h
  simp only [u64be_length] at hb
  simp only [if_pos rfl, hb]
  have h1 : (u64be v).take 4 = u32be (v % 2 ^ 64 / 2 ^ 32) := by
    simp [u64be, List.take_left]
  have h2 : (u64be v).drop 4 = u32be (v % 2 ^ 32) := by
    simp [u64be, List.drop_left]
  have hhi : v % 2 ^ 64 / 2 ^ 32 < 2 ^ 32 := by omega
  have hlo : v % 2 ^ 32 < 2 ^ 32 := by omega
  have hval : beVal ((u64be v).take 4) * 2 ^ 32 + beVal ((u64be v).drop 4) = v := by
    rw [h1, h2, beVal_u32be hhi, beVal_u32be hlo]; omega
  rw [hval]
  simp

theorem Deserializer.readString_eval {d : Deserializer} {s : CppStr}
    {C : List Nat} (hs : s.length ≤ 2 ^ 20)
    (h : d.buffer.drop d.position = wstr s ++ C) :
    d.readString = (.ok s, d.advance (4 + s.length)) := by
  have h' : d.buffer.drop d.position = u32be s.length ++ (s ++ C) := by
    simpa [wstr, List.append_assoc] using h
  have h32 := Deserializer.readU32_eval (v := s.length)
    (by omega) h'
  rw [Deserializer.readString, h32]
  have hmax : ¬ s.length > Deserializer.MAX_STRING_LENGTH := by
    simp [Deserializer.MAX_STRING_LENGTH]; omega
  have hdrop : (d.advance 4).buffer.drop (d.advance 4).position = s ++ C := by
    simp only [Deserializer.buffer_advance, Deserializer.position_advance]
    rw [← List.drop_drop, h', List.drop_left']
    simp
  simp [hmax, Deserializer.hasRemaining_of_drop hdrop (Nat.le_refl _),
    Deserializer.bytesAt_of_drop hdrop, Nat.add_comm]

/-! ### Payload-decoder reader-of-writer discipline -/

namespace NET

/-- `PReads p bs a`: wherever the cursor stands, if the bytes from the cursor
on start with `bs`, the decoder `p` succeeds with `a` and advances exactly
over `bs`. -/
def PReads (p : PDecoder α) (bs : List Nat) (a : α) : Prop :=
  ∀ (d : Deserializer) (C : List Nat), d.buffer.drop d.position = bs ++ C →
    p d = .ok (a, d.advance bs.length)

theorem preads_congr {p : PDecoder α} {bs bs' : List Nat} {a : α}
    (h : bs' = bs) (hp : PReads p bs a) : PReads p bs' a := h ▸ hp

theorem preads_congr2 {p : PDecoder α} {bs bs' : List Nat} {a : α}
    (hp : PReads p bs a) (h : bs' = bs) : PReads p bs' a := h ▸ hp

theorem preads_ppure (a : α) : PReads (ppure a) [] a := by
  intro d C h
  simp [ppure]

theorem preads_pthen {p : PDecoder α} {k : α → PDecoder β} {bs cs : List Nat}
    {a : α} {b : β} (hp : PReads p bs a) (hk : PReads (k a) cs b) :
    PReads (pthen p k) (bs ++ cs) b := by
  intro d C h
  have h' : d.buffer.drop d.position = bs ++ (cs ++ C) := by
    simpa [List.append_assoc] using h
  have hdrop : (d.advance bs.length).buffer.drop (d.advance bs.length).position
      = cs ++ C := by
    simp only [Deserializer.buffer_advance, Deserializer.position_advance]
    rw [← List.drop_drop, h', List.drop_left']
    rfl
  have h1 := hp d (cs ++ C) h'
  have h2 := hk (d.advance bs.length) C hdrop
  simp [pthen, h1, h2]

theorem preads_rdU8 {b : Nat} (hb : b < 256) : PReads rdU8 (u8byte b) b := by
  intro d C h
  have h' : d.buffer.drop d.position = b :: C := by
    simpa [u8byte, Nat.mod_eq_of_lt hb] using h
  simp [rdU8, Deserializer.readU8_eval h', u8byte]

theorem preads_rdU32 {v : Nat} (hv : v < 2 ^ 32) : PReads rdU32 (u32be v) v := by
  intro d C h
  simp [rdU32, Deserializer.readU32_eval hv h]

theorem preads_rdU64 {v : Nat} (hv : v < 2 ^ 64) : PReads rdU64 (u64be v) v := by
  intro d C h
  simp [rdU64, Deserializer.readU64_eval hv h]

theorem preads_rdStr {s : CppStr} (hs : s.length ≤ 2 ^ 20) :
    PReads rdStr (wstr s) s := by
  intro d C h
  simp [rdStr, Deserializer.readString_eval hs h, wstr, Nat.add_comm]

theorem preads_rdCount {p : PDecoder α} {enc : α → List Nat} {xs : List α}
    (h : ∀ x ∈ xs, PReads p (enc x) x) :
    PReads (rdCount xs.length p) ((xs.map enc).flatten) xs := by
  induction xs with
  | nil => simpa [rdCount] using preads_ppure ([] : List α)
  | cons x xs ih =>
    have hx := h x (by simp)
    have hxs := ih (fun y hy => h y (by simp [hy]))
    have inner : PReads (pthen (rdCount xs.length p) fun ys => ppure (x :: ys))
        ((xs.map enc).flatten) (x :: xs) :=
      preads_congr (by simp) (preads_pthen hxs (preads_ppure (x :: xs)))
    simpa [rdCount] using preads_pthen hx inner

end NET

namespace NET

/-- The string-length precondition under which `readString` can accept a
string the writer produced: at most `MAX_STRING_LENGTH` (1 MiB) bytes. -/
def strOk (s : CppStr) : Bool := s.length ≤ 2 ^ 20

/-- Field constraints of `NET::LiteralValue` (`type` is a `uint8_t`). -/
def LiteralValue.wf (l : LiteralValue) : Bool :=
  decide (l.type < 256) && strOk l.value

/-- Field constraints of `NET::ColumnDefinition`. -/
def ColumnDefinition.wf (c : ColumnDefinition) : Bool :=
  strOk c.name && decide (c.type < 256)

/-- Field constraints of `NET::WhereCondition`. -/
def WhereCondition.wf (w : WhereCondition) : Bool :=
  strOk w.column && (strOk w.operator_str && w.value.wf)

/-- Field constraints of `NET::SetClause`. -/
def SetClause.wf (s : SetClause) : Bool :=
  strOk s.column && s.value.wf

/-- Field constraints of `NET::QueryRequest`: `operation` is a `uint8_t`,
strings are within the reader's 1 MiB bound and the element counts fit the
`u32` count fields. -/
def QueryRequestData.wf (q : QueryRequestData) : Bool :=
  decide (q.operation < 256) &&
  (strOk q.session_token && (strOk q.database_name && (strOk q.table_name &&
  (decide (q.columns.length < 2 ^ 32) && (q.columns.all ColumnDefinition.wf &&
  (decide (q.select_columns.length < 2 ^ 32) && (q.select_columns.all strOk &&
  (decide (q.insert_values.length < 2 ^ 32) && (q.insert_values.all LiteralValue.wf &&
  (decide (q.update_clauses.length < 2 ^ 32) && (q.update_clauses.all SetClause.wf &&
  (match q.where_condition with
    | some w => w.wf
    | none => true))))))))))))

/-- Field constraints of `NET::QueryResponse::Row`. -/
def ResponseRow.wf (row : ResponseRow) : Bool :=
  decide (row.columns.length < 2 ^ 32) && row.columns.all strOk

/-- Field constraints of `NET::QueryResponse`. Besides the size bounds, a
message survives the round trip only if the fields of the branch that is
not serialized hold their default values: a successful response has an
empty `error_message`, a failed one has no column names and no rows. -/
def QueryResponseData.wf (r : QueryResponseData) : Bool :=
  (r.success || (r.column_names.isEmpty && r.rows.isEmpty)) &&
  ((!r.success || r.error_message.isEmpty) &&
  (decide (r.column_names.length < 2 ^ 32) && (r.column_names.all strOk &&
  (decide (r.rows.length < 2 ^ 32) && (r.rows.all ResponseRow.wf &&
  strOk r.error_message)))))

/-- Per-variant field constraints of a message (`u32` fields below `2 ^ 32`,
`u64` fields below `2 ^ 64`, strings within the 1 MiB reader bound). -/
def Msg.wfFields : Msg → Bool
  | .loginRequest u p => strOk u && strOk p
  | .loginSuccess t uid => strOk t && decide (uid < 2 ^ 32)
  | .loginFailure msg => strOk msg
  | .queryRequest q => q.wf
  | .queryResponse r => r.wf
  | .pingRequest ts => decide (ts < 2 ^ 64)
  | .pongResponse o s => decide (o < 2 ^ 64) && decide (s < 2 ^ 64)
  | .errorResponse msg code => strOk msg && decide (code < 2 ^ 32)

/-- A message all of whose field values are representable on the wire: the
per-variant constraints plus a payload that fits the `u32` size field. -/
def Msg.wf (m : Msg) : Bool :=
  m.wfFields && decide (m.payloadBytes.length < 2 ^ 32)

theorem preads_cast {p : PDecoder α} {bs : List Nat} {a a' : α} (h : a = a')
    (hp : PReads p bs a) : PReads p bs a' := h ▸ hp

theorem strOk_le {s : CppStr} (h : strOk s = true) : s.length ≤ 2 ^ 20 := by
  simpa [strOk] using h

theorem preads_literal {l : LiteralValue} (h : l.wf = true) :
    PReads LiteralValue.deserialize l.enc l := by
  rw [LiteralValue.wf, Bool.and_eq_true, decide_eq_true_eq] at h
  exact preads_pthen (preads_rdU8 h.1)
    (preads_congr (by simp)
      (preads_pthen (preads_rdStr (strOk_le h.2)) (preads_ppure _)))

theorem preads_columnDef {c : ColumnDefinition} (h : c.wf = true) :
    PReads ColumnDefinition.deserialize c.enc c := by
  rw [ColumnDefinition.wf, Bool.and_eq_true, decide_eq_true_eq] at h
  have hbit : (if c.is_primary_key then 1 else 0) < 256 := by
    cases c.is_primary_key <;> simp
  have hval : (⟨c.name, c.type,
      decide ((if c.is_primary_key then (1 : Nat) else 0) ≠ 0)⟩ :
      ColumnDefinition) = c := by
    cases c with
    | mk n t pk => cases pk <;> simp
  refine preads_cast hval ?_
  rw [ColumnDefinition.deserialize, ColumnDefinition.enc]
  refine preads_pthen (preads_rdStr (strOk_le h.1)) ?_
  refine preads_pthen (preads_rdU8 h.2) ?_
  refine preads_congr (List.append_nil _).symm ?_
  exact preads_pthen (preads_rdU8 hbit) (preads_ppure _)

theorem preads_whereCond {w : WhereCondition} (h : w.wf = true) :
    PReads WhereCondition.deserialize w.enc w := by
  rw [WhereCondition.wf, Bool.and_eq_true, Bool.and_eq_true] at h
  rw [WhereCondition.deserialize, WhereCondition.enc]
  refine preads_pthen (preads_rdStr (strOk_le h.1)) ?_
  refine preads_pthen (preads_rdStr (strOk_le h.2.1)) ?_
  refine preads_congr (List.append_nil _).symm ?_
  exact preads_pthen (preads_literal h.2.2) (preads_ppure _)

theorem preads_setClause {s : SetClause} (h : s.wf = true) :
    PReads SetClause.deserialize s.enc s := by
  rw [SetClause.wf, Bool.and_eq_true] at h
  rw [SetClause.deserialize, SetClause.enc]
  refine preads_pthen (preads_rdStr (strOk_le h.1)) ?_
  refine preads_congr (List.append_nil _).symm ?_
  exact preads_pthen (preads_literal h.2) (preads_ppure _)

end NET

namespace NET

/-- The payload decoder the factory associates with each variant. -/
def pdOf : Msg → PDecoder Msg
  | .loginRequest _ _ => pdLoginRequest
  | .loginSuccess _ _ => pdLoginSuccess
  | .loginFailure _ => pdLoginFailure
  | .queryRequest _ => pdQueryRequest
  | .queryResponse _ => pdQueryResponse
  | .pingRequest _ => pdPingRequest
  | .pongResponse _ _ => pdPongResponse
  | .errorResponse _ _ => pdErrorResponse

theorem messageFactory_typeByte (m : Msg) :
    messageFactory m.typeByte = .ok (pdOf m) := by
  cases m <;> rfl

theorem typeByte_lt (m : Msg) : m.typeByte < 256 := by
  cases m <;> simp [Msg.typeByte]

theorem preads_row {row : ResponseRow} (h : ResponseRow.wf row = true) :
    PReads
      (pthen rdU32 fun ncells =>
        pthen (rdCount ncells rdStr) fun cells => ppure (⟨cells⟩ : ResponseRow))
      (encCounted wstr row.columns) row := by
  rw [ResponseRow.wf, Bool.and_eq_true, decide_eq_true_eq, List.all_eq_true] at h
  refine preads_congr (show encCounted wstr row.columns =
    u32be row.columns.length ++ ((row.columns.map wstr).flatten ++ []) by
      simp [encCounted]) ?_
  refine preads_pthen (preads_rdU32 h.1) ?_
  exact preads_pthen
    (preads_rdCount fun s hs => preads_rdStr (strOk_le (h.2 s hs)))
    (preads_ppure _)

theorem preads_payload (m : Msg) (h : m.wfFields = true) :
    PReads (pdOf m) m.payloadBytes m := by
  cases m with
  | loginRequest u p =>
    rw [Msg.wfFields, Bool.and_eq_true] at h
    rw [pdOf, pdLoginRequest, Msg.payloadBytes]
    refine preads_pthen (preads_rdStr (strOk_le h.1)) ?_
    refine preads_congr (List.append_nil _).symm ?_
    exact preads_pthen (preads_rdStr (strOk_le h.2)) (preads_ppure _)
  | loginSuccess t uid =>
    rw [Msg.wfFields, Bool.and_eq_true, decide_eq_true_eq] at h
    rw [pdOf, pdLoginSuccess, Msg.payloadBytes]
    refine preads_pthen (preads_rdStr (strOk_le h.1)) ?_
    refine preads_congr (List.append_nil _).symm ?_
    exact preads_pthen (preads_rdU32 h.2) (preads_ppure _)
  | loginFailure msg =>
    rw [Msg.wfFields] at h
    rw [pdOf, pdLoginFailure, Msg.payloadBytes]
    refine preads_congr (List.append_nil _).symm ?_
    exact preads_pthen (preads_rdStr (strOk_le h)) (preads_ppure _)
  | queryRequest q =>
    obtain ⟨op, tok, db, tbl, cols, sels, inss, upds, w⟩ := q
    rw [Msg.wfFields, QueryRequestData.wf] at h
    simp only [Bool.and_eq_true, decide_eq_true_eq, List.all_eq_true] at h
    obtain ⟨hop, htok, hdb, htbl, hncols, hcols, hnsel, hsels, hnins, hinss,
      hnupd, hupds, hw⟩ := h
    rw [pdOf, pdQueryRequest, Msg.payloadBytes, QueryRequestData.payload]
    rcases w with _ | w
    · apply preads_pthen (preads_rdU8 hop)
      apply preads_pthen (preads_rdStr (strOk_le htok))
      apply preads_pthen (preads_rdStr (strOk_le hdb))
      apply preads_pthen (preads_rdStr (strOk_le htbl))
      apply preads_congr2
      apply preads_pthen (preads_rdU32 hncols)
      apply preads_pthen (preads_rdCount fun c hc => preads_columnDef (hcols c hc))
      apply preads_pthen (preads_rdU32 hnsel)
      apply preads_pthen (preads_rdCount fun x hx => preads_rdStr (strOk_le (hsels x hx)))
      apply preads_pthen (preads_rdU32 hnins)
      apply preads_pthen (preads_rdCount fun l hl => preads_literal (hinss l hl))
      apply preads_pthen (preads_rdU32 hnupd)
      apply preads_pthen (preads_rdCount fun u hu => preads_setClause (hupds u hu))
      apply preads_congr (List.append_nil _).symm
      apply preads_pthen (preads_rdU8 (b := 0) (by norm_num))
      rw [if_neg (by norm_num)]
      exact preads_ppure _
      all_goals simp [encCounted, List.append_assoc]
    · apply preads_pthen (preads_rdU8 hop)
      apply preads_pthen (preads_rdStr (strOk_le htok))
      apply preads_pthen (preads_rdStr (strOk_le hdb))
      apply preads_pthen (preads_rdStr (strOk_le htbl))
      apply preads_congr2
      apply preads_pthen (preads_rdU32 hncols)
      apply preads_pthen (preads_rdCount fun c hc => preads_columnDef (hcols c hc))
      apply preads_pthen (preads_rdU32 hnsel)
      apply preads_pthen (preads_rdCount fun x hx => preads_rdStr (strOk_le (hsels x hx)))
      apply preads_pthen (preads_rdU32 hnins)
      apply preads_pthen (preads_rdCount fun l hl => preads_literal (hinss l hl))
      apply preads_pthen (preads_rdU32 hnupd)
      apply preads_pthen (preads_rdCount fun u hu => preads_setClause (hupds u hu))
      apply preads_pthen (preads_rdU8 (b := 1) (by norm_num))
      rw [if_pos (by norm_num)]
      apply preads_congr (List.append_nil _).symm
      exact preads_pthen (preads_whereCond hw) (preads_ppure _)
      all_goals simp [encCounted, List.append_assoc]
  | queryResponse r =>
    obtain ⟨cols, rows, success, err⟩ := r
    rw [Msg.wfFields, QueryResponseData.wf] at h
    simp only [Bool.and_eq_true, decide_eq_true_eq, List.all_eq_true,
      Bool.or_eq_true, List.isEmpty_iff] at h
    obtain ⟨hdef, hdef2, hncols, hcols, hnrows, hrows, herr⟩ := h
    rw [pdOf, pdQueryResponse, Msg.payloadBytes, QueryResponseData.payload]
    cases success with
    | true =>
      have herrnil : err = [] := by
        rcases hdef2 with h' | h'
        · simp at h'
        · exact h'
      subst herrnil
      simp only [if_pos rfl]
      apply preads_pthen (preads_rdU8 (b := 1) (by norm_num))
      rw [if_pos (by norm_num)]
      apply preads_congr2
      apply preads_pthen (preads_rdU32 hncols)
      apply preads_pthen (preads_rdCount fun x hx => preads_rdStr (strOk_le (hcols x hx)))
      apply preads_pthen (preads_rdU32 hnrows)
      apply preads_congr (List.append_nil _).symm
      exact preads_pthen (preads_rdCount fun row hr => preads_row (hrows row hr))
        (preads_ppure _)
      all_goals simp [encCounted, List.append_assoc]
    | false =>
      have hcnil : cols = [] ∧ rows = [] := by
        rcases hdef with h' | h'
        · simp at h'
        · exact h'
      obtain ⟨hc, hr⟩ := hcnil
      subst hc; subst hr
      simp only [if_neg (by simp : ¬ (false : Bool) = true)]
      apply preads_pthen (preads_rdU8 (b := 0) (by norm_num))
      rw [if_neg (by norm_num)]
      apply preads_congr (List.append_nil _).symm
      exact preads_pthen (preads_rdStr (strOk_le herr)) (preads_ppure _)
  | pingRequest ts =>
    rw [Msg.wfFields, decide_eq_true_eq] at h
    rw [pdOf, pdPingRequest, Msg.payloadBytes]
    refine preads_congr (List.append_nil _).symm ?_
    exact preads_pthen (preads_rdU64 h) (preads_ppure _)
  | pongResponse o s =>
    rw [Msg.wfFields, Bool.and_eq_true, decide_eq_true_eq, decide_eq_true_eq] at h
    rw [pdOf, pdPongResponse, Msg.payloadBytes]
    refine preads_pthen (preads_rdU64 h.1) ?_
    refine preads_congr (List.append_nil _).symm ?_
    exact preads_pthen (preads_rdU64 h.2) (preads_ppure _)
  | errorResponse msg code =>
    rw [Msg.wfFields, Bool.and_eq_true, decide_eq_true_eq] at h
    rw [pdOf, pdErrorResponse, Msg.payloadBytes]
    refine preads_pthen (preads_rdStr (strOk_le h.1)) ?_
    refine preads_congr (List.append_nil _).symm ?_
    exact preads_pthen (preads_rdU32 h.2) (preads_ppure _)

end NET

namespace NET

theorem Msg.serialize_length (m : Msg) :
    m.serialize.length = 9 + m.payloadBytes.length := by
  simp [Msg.serialize, u8byte]
  omega

theorem MAGIC_NUMBER_lt : MAGIC_NUMBER < 2 ^ 32 := by norm_num [MAGIC_NUMBER]

/-- Decoding a well-framed byte string: 9-byte header with the right magic,
a type byte the factory knows, an exact payload-size field, and a payload
its decoder accepts, produce the decoded message. -/
theorem deserialize_of_preads {tb : Nat} {pd : PDecoder Msg}
    (hfac : messageFactory tb = .ok pd) {P : List Nat} (hn : P.length < 2 ^ 32)
    {m : Msg} (hp : PReads pd P m) :
    Msg.deserialize (u32be MAGIC_NUMBER ++ ([tb] ++ (u32be P.length ++ P))) =
      .ok m := by
  set data := u32be MAGIC_NUMBER ++ ([tb] ++ (u32be P.length ++ P)) with hdata
  have hlen : data.length = 9 + P.length := by
    simp [hdata]
    omega
  have e0 : data.drop 0 = u32be MAGIC_NUMBER ++ ([tb] ++ (u32be P.length ++ P)) := by
    simp [hdata]
  have e4 : data.drop 4 = [tb] ++ (u32be P.length ++ P) := by
    rw [hdata]
    rw [show (4 : Nat) = (u32be MAGIC_NUMBER).length from rfl, List.drop_left]
  have e5 : data.drop 5 = u32be P.length ++ P := by
    have h1 := congrArg (List.drop 1) e4
    rw [List.drop_drop] at h1
    simpa using h1
  have e9 : data.drop 9 = P ++ [] := by
    have h1 := congrArg (List.drop 4) e5
    rw [List.drop_drop] at h1
    norm_num at h1
    simpa [List.drop_left] using h1
  have r1 : (Deserializer.mk data 0).readU32 = (.ok MAGIC_NUMBER, ⟨data, 4⟩) := by
    have := Deserializer.readU32_eval (d := ⟨data, 0⟩) MAGIC_NUMBER_lt
      (by simpa using e0)
    simpa [Deserializer.advance] using this
  have r2 : (Deserializer.mk data 4).readU8 = (.ok tb, ⟨data, 5⟩) := by
    have := Deserializer.readU8_eval (d := ⟨data, 4⟩)
      (b := tb) (C := u32be P.length ++ P) (by simpa using e4)
    simpa [Deserializer.advance] using this
  have r3 : (Deserializer.mk data 5).readU32 = (.ok P.length, ⟨data, 9⟩) := by
    have := Deserializer.readU32_eval (d := ⟨data, 5⟩) hn (by simpa using e5)
    simpa [Deserializer.advance] using this
  have r4 : pd ⟨data, 9⟩ = .ok (m, ⟨data, 9 + P.length⟩) := by
    have := hp ⟨data, 9⟩ [] (by simpa using e9)
    simpa [Deserializer.advance] using this
  rw [Msg.deserialize, hlen, if_neg (by omega), r1]
  simp only [MAGIC_NUMBER, ne_eq, not_true_eq_false, if_neg, ite_false,
    not_false_eq_true, if_false]
  simp only [r2, r3]
  rw [if_neg (by omega)]
  simp only [hfac, r4]

/-- C1 (amended): for every message variant and every field assignment whose
values are wire-representable — every string at most 1 MiB, every element
count and the payload size within `u32`, numeric fields within their
declared widths — decoding the encoded bytes yields the original message
field for field, and the encoded byte length always equals 9 plus the
payload size. -/
theorem message_encode_decode_roundtrip (m : Msg) (h : m.wf = true) :
    Msg.deserialize m.serialize = .ok m ∧
      m.serialize.length = 9 + m.payloadBytes.length := by
  rw [Msg.wf, Bool.and_eq_true, decide_eq_true_eq] at h
  constructor
  · have hser : m.serialize =
        u32be MAGIC_NUMBER ++ ([m.typeByte] ++
          (u32be m.payloadBytes.length ++ m.payloadBytes)) := by
      rw [Msg.serialize]
      simp [u8byte, Nat.mod_eq_of_lt (typeByte_lt m)]
    rw [hser]
    exact deserialize_of_preads (messageFactory_typeByte m) h.2
      (preads_payload m h.1)
  · exact Msg.serialize_length m

/-- Witness for C1: the specification's own sample LOGIN_REQUEST (username
`"u"`, password `"p"`) is well-formed, round-trips, and its encoding is
9 + 10 bytes long. -/
theorem message_encode_decode_roundtrip_witness :
    (Msg.loginRequest (cpp "u") (cpp "p")).wf = true ∧
      (Msg.deserialize (Msg.loginRequest (cpp "u") (cpp "p")).serialize =
        .ok (Msg.loginRequest (cpp "u") (cpp "p")) ∧
      (Msg.loginRequest (cpp "u") (cpp "p")).serialize.length = 9 + 10) :=
  ⟨by decide, (message_encode_decode_roundtrip _ (by decide)).1,
    (message_encode_decode_roundtrip _ (by decide)).2⟩

/-- The oversized string of the C1 counterexample: one byte more than the
reader's 1 MiB bound. -/
def bigStr : CppStr := List.replicate (2 ^ 20 + 1) 97

theorem bigStr_length : bigStr.length = 2 ^ 20 + 1 := by
  rw [bigStr]
  exact List.length_replicate _ _

/-- Decoding the encoding of any LOGIN_FAILURE whose error message exceeds
the reader's 1 MiB string bound fails with `DESERIALIZATION_FAILED` (the
inner `readString` rejects the declared length with `STRING_TOO_LONG`,
which `LoginFailure::deserializePayload` reports as a deserialization
failure). -/
theorem deserialize_loginFailure_too_long (s : CppStr)
    (h1 : 2 ^ 20 < s.length) (h2 : s.length < 2 ^ 32 - 4) :
    Msg.deserialize (Msg.loginFailure s).serialize
      = .error .DESERIALIZATION_FAILED := by
  set m : Msg := Msg.loginFailure s with hm
  have hplen : m.payloadBytes.length = 4 + s.length := by
    rw [hm, Msg.payloadBytes, wstr_length]
  have hser : m.serialize =
      u32be MAGIC_NUMBER ++ ([m.typeByte] ++
        (u32be m.payloadBytes.length ++ m.payloadBytes)) := by
    rw [Msg.serialize]
    rw [show u8byte m.typeByte = [m.typeByte] by
      simp [u8byte, Nat.mod_eq_of_lt (typeByte_lt m)]]
  set data := u32be MAGIC_NUMBER ++ ([m.typeByte] ++
    (u32be m.payloadBytes.length ++ m.payloadBytes)) with hdata
  have hlen : data.length = 9 + m.payloadBytes.length := by
    rw [hdata]
    simp only [List.length_append, u32be_length, List.length_cons,
      List.length_nil]
    omega
  have e0 : data.drop 0 = u32be MAGIC_NUMBER ++ ([m.typeByte] ++
      (u32be m.payloadBytes.length ++ m.payloadBytes)) := by
    rw [hdata, List.drop_zero]
  have e4 : data.drop 4 = [m.typeByte] ++
      (u32be m.payloadBytes.length ++ m.payloadBytes) := by
    rw [hdata]
    rw [show (4 : Nat) = (u32be MAGIC_NUMBER).length from rfl, List.drop_left]
  have e5 : data.drop 5 = u32be m.payloadBytes.length ++ m.payloadBytes := by
    have hh := congrArg (List.drop 1) e4
    rw [List.drop_drop] at hh
    simpa using hh
  have e9 : data.drop 9 = m.payloadBytes := by
    have hh := congrArg (List.drop 4) e5
    rw [List.drop_drop] at hh
    norm_num at hh
    simpa [List.drop_left] using hh
  have r1 : (Deserializer.mk data 0).readU32 = (.ok MAGIC_NUMBER, ⟨data, 4⟩) := by
    have := Deserializer.readU32_eval (d := ⟨data, 0⟩) MAGIC_NUMBER_lt
      (by simpa using e0)
    simpa [Deserializer.advance] using this
  have r2 : (Deserializer.mk data 4).readU8 = (.ok m.typeByte, ⟨data, 5⟩) := by
    have := Deserializer.readU8_eval (d := ⟨data, 4⟩)
      (b := m.typeByte) (C := u32be m.payloadBytes.length ++ m.payloadBytes)
      (by simpa using e4)
    simpa [Deserializer.advance] using this
  have r3 : (Deserializer.mk data 5).readU32 =
      (.ok m.payloadBytes.length, ⟨data, 9⟩) := by
    have := Deserializer.readU32_eval (d := ⟨data, 5⟩)
      (v := m.payloadBytes.length) (by omega) (by simpa using e5)
    simpa [Deserializer.advance] using this
  have epay : m.payloadBytes = wstr s := by rw [hm, Msg.payloadBytes]
  have rs : (Deserializer.mk data 9).readString =
      (.error .STRING_TOO_LONG, ⟨data, 13⟩) := by
    have e9' : (Deserializer.mk data 9).buffer.drop
        (Deserializer.mk data 9).position = u32be s.length ++ (s ++ []) := by
      rw [show (Deserializer.mk data 9).buffer.drop
          (Deserializer.mk data 9).position = data.drop 9 from rfl, e9, epay,
        wstr, List.append_nil]
    have r32 := Deserializer.readU32_eval (d := ⟨data, 9⟩)
      (v := s.length) (by omega) e9'
    rw [Deserializer.readString]
    simp only [r32]
    rw [if_pos (show s.length > Deserializer.MAX_STRING_LENGTH by
      rw [Deserializer.MAX_STRING_LENGTH]; omega)]
    simp [Deserializer.advance]
  have r4 : pdLoginFailure ⟨data, 9⟩ = .error .DESERIALIZATION_FAILED := by
    rw [pdLoginFailure, pthen, rdStr]
    simp only [rs]
  rw [hser, Msg.deserialize, hlen, if_neg (by omega), r1]
  simp only [MAGIC_NUMBER, ne_eq, not_true_eq_false, if_neg, ite_false,
    not_false_eq_true, if_false]
  simp only [r2, r3]
  rw [if_neg (by omega)]
  simp only [show messageFactory m.typeByte = .ok pdLoginFailure from rfl, r4]

/-- Counterexample to C1 as stated: a LOGIN_FAILURE whose error message is
one byte longer than the reader's 1 MiB string bound encodes fine, but
decoding its own encoding fails with `DESERIALIZATION_FAILED`, so
`decode(encode(m)) = m` does not hold for every field assignment. -/
theorem message_roundtrip_fails_beyond_string_bound :
    Msg.deserialize (Msg.loginFailure bigStr).serialize
        = .error .DESERIALIZATION_FAILED ∧
      Msg.deserialize (Msg.loginFailure bigStr).serialize
        ≠ .ok (Msg.loginFailure bigStr) := by
  have hfail := deserialize_loginFailure_too_long bigStr
    (by rw [bigStr_length]; omega) (by rw [bigStr_length]; norm_num)
  exact ⟨hfail, by rw [hfail]; intro hcontra; exact Except.noConfusion hcontra⟩

end NET

theorem Deserializer.readU32_eval_bytes {d : Deserializer} {b0 b1 b2 b3 : Nat}
    {C : List Nat} (h : d.buffer.drop d.position = b0 :: b1 :: b2 :: b3 :: C) :
    d.readU32 = (.ok (beVal [b0, b1, b2, b3]), d.advance 4) := by
  have h' : d.buffer.drop d.position = [b0, b1, b2, b3] ++ C := by simpa using h
  rw [Deserializer.readU32, Deserializer.hasRemaining_of_drop h' (by simp)]
  have hb := Deserializer.bytesAt_of_drop h'
  simp only [List.length_cons, List.length_nil] at hb
  simp [hb]

namespace NET

/-- A framed input whose first four bytes do not spell the magic number is
rejected with `INVALID_MAGIC_NUMBER` (provided at least 9 bytes are
present, so that the length gate is passed). -/
theorem deserialize_of_bad_magic (b0 b1 b2 b3 : Nat) (C : List Nat)
    (h9 : 9 ≤ (b0 :: b1 :: b2 :: b3 :: C).length)
    (hne : beVal [b0, b1, b2, b3] ≠ MAGIC_NUMBER) :
    Msg.deserialize (b0 :: b1 :: b2 :: b3 :: C) = .error .INVALID_MAGIC_NUMBER := by
  rw [Msg.deserialize, if_neg (by omega)]
  have r1 := @Deserializer.readU32_eval_bytes
    ⟨b0 :: b1 :: b2 :: b3 :: C, 0⟩ b0 b1 b2 b3 C (by simp)
  simp only [r1]
  rw [if_pos hne]

/-- Reading the 9-byte header of a well-framed prefix succeeds and leaves
`deserialize` at the payload-size comparison: if fewer bytes than
`9 + payload_size` are present the result is `PAYLOAD_SIZE_MISMATCH`. -/
theorem deserialize_short_payload (tb n : Nat) (hn : n < 2 ^ 32) (Q : List Nat)
    (hshort : (u32be MAGIC_NUMBER ++ ([tb] ++ (u32be n ++ Q))).length < 9 + n) :
    Msg.deserialize (u32be MAGIC_NUMBER ++ ([tb] ++ (u32be n ++ Q))) =
      .error .PAYLOAD_SIZE_MISMATCH := by
  set data := u32be MAGIC_NUMBER ++ ([tb] ++ (u32be n ++ Q)) with hdata
  have hlen : data.length = 9 + Q.length := by
    rw [hdata]
    simp only [List.length_append, u32be_length, List.length_cons,
      List.length_nil]
    omega
  have e0 : data.drop 0 = u32be MAGIC_NUMBER ++ ([tb] ++ (u32be n ++ Q)) := by
    rw [hdata, List.drop_zero]
  have e4 : data.drop 4 = [tb] ++ (u32be n ++ Q) := by
    rw [hdata]
    rw [show (4 : Nat) = (u32be MAGIC_NUMBER).length from rfl, List.drop_left]
  have e5 : data.drop 5 = u32be n ++ Q := by
    have hh := congrArg (List.drop 1) e4
    rw [List.drop_drop] at hh
    simpa using hh
  have r1 : (Deserializer.mk data 0).readU32 = (.ok MAGIC_NUMBER, ⟨data, 4⟩) := by
    have := Deserializer.readU32_eval (d := ⟨data, 0⟩) MAGIC_NUMBER_lt
      (by simpa using e0)
    simpa [Deserializer.advance] using this
  have r2 : (Deserializer.mk data 4).readU8 = (.ok tb, ⟨data, 5⟩) := by
    have := Deserializer.readU8_eval (d := ⟨data, 4⟩)
      (b := tb) (C := u32be n ++ Q) (by simpa using e4)
    simpa [Deserializer.advance] using this
  have r3 : (Deserializer.mk data 5).readU32 = (.ok n, ⟨data, 9⟩) := by
    have := Deserializer.readU32_eval (d := ⟨data, 5⟩) hn (by simpa using e5)
    simpa [Deserializer.advance] using this
  rw [Msg.deserialize, hlen, if_neg (by omega), r1]
  simp only [MAGIC_NUMBER, ne_eq, not_true_eq_false, if_neg, ite_false,
    not_false_eq_true, if_false]
  simp only [r2, r3]
  rw [if_pos (by omega)]

end NET

namespace NET

theorem u32be_MAGIC : u32be MAGIC_NUMBER = [222, 173, 190, 239] := by
  norm_num [u32be, MAGIC_NUMBER]

/-- C6 (amended): for a well-formed message, (i) flipping any of the four
magic bytes of its encoding makes decode fail with `INVALID_MAGIC_NUMBER`;
(ii) truncating the encoding below `9 + payload_size` but at or above the
9-byte header yields `PAYLOAD_SIZE_MISMATCH`; (iii) truncating below the
9-byte header yields `DESERIALIZATION_FAILED` (not `INSUFFICIENT_DATA`,
which is not a `ProtocolError` value at all). -/
theorem header_integrity (m : Msg) (h : m.wf = true) (i b k : Nat) :
    (i < 4 → b ≠ m.serialize.getD i 0 →
      Msg.deserialize (m.serialize.set i b) = .error .INVALID_MAGIC_NUMBER) ∧
    (9 ≤ k → k < 9 + m.payloadBytes.length →
      Msg.deserialize (m.serialize.take k) = .error .PAYLOAD_SIZE_MISMATCH) ∧
    (k < 9 → Msg.deserialize (m.serialize.take k) = .error .DESERIALIZATION_FAILED) := by
  rw [Msg.wf, Bool.and_eq_true, decide_eq_true_eq] at h
  have hlen9 := Msg.serialize_length m
  refine ⟨?_, ?_, ?_⟩
  · intro hi hb
    have hform : m.serialize = 222 :: 173 :: 190 :: 239 ::
        (u8byte m.typeByte ++ (u32be m.payloadBytes.length ++ m.payloadBytes)) := by
      rw [Msg.serialize, u32be_MAGIC]
      rfl
    have hrestlen : 9 ≤ (222 :: 173 :: 190 :: 239 ::
        (u8byte m.typeByte ++ (u32be m.payloadBytes.length ++ m.payloadBytes))).length := by
      rw [← hform]
      omega
    interval_cases i
    · rw [hform] at hb ⊢
      simp only [List.getD_cons_zero] at hb
      rw [show (222 :: 173 :: 190 :: 239 ::
          (u8byte m.typeByte ++ (u32be m.payloadBytes.length ++ m.payloadBytes))).set 0 b
          = b :: 173 :: 190 :: 239 ::
          (u8byte m.typeByte ++ (u32be m.payloadBytes.length ++ m.payloadBytes)) from rfl]
      refine deserialize_of_bad_magic _ _ _ _ _ (by simpa using hrestlen) ?_
      simp only [beVal, List.foldl, MAGIC_NUMBER]
      omega
    · rw [hform] at hb ⊢
      simp only [List.getD_cons_succ, List.getD_cons_zero] at hb
      rw [show (222 :: 173 :: 190 :: 239 ::
          (u8byte m.typeByte ++ (u32be m.payloadBytes.length ++ m.payloadBytes))).set 1 b
          = 222 :: b :: 190 :: 239 ::
          (u8byte m.typeByte ++ (u32be m.payloadBytes.length ++ m.payloadBytes)) from rfl]
      refine deserialize_of_bad_magic _ _ _ _ _ (by simpa using hrestlen) ?_
      simp only [beVal, List.foldl, MAGIC_NUMBER]
      omega
    · rw [hform] at hb ⊢
      simp only [List.getD_cons_succ, List.getD_cons_zero] at hb
      rw [show (222 :: 173 :: 190 :: 239 ::
          (u8byte m.typeByte ++ (u32be m.payloadBytes.length ++ m.payloadBytes))).set 2 b
          = 222 :: 173 :: b :: 239 ::
          (u8byte m.typeByte ++ (u32be m.payloadBytes.length ++ m.payloadBytes)) from rfl]
      refine deserialize_of_bad_magic _ _ _ _ _ (by simpa using hrestlen) ?_
      simp only [beVal, List.foldl, MAGIC_NUMBER]
      omega
    · rw [hform] at hb ⊢
      simp only [List.getD_cons_succ, List.getD_cons_zero] at hb
      rw [show (222 :: 173 :: 190 :: 239 ::
          (u8byte m.typeByte ++ (u32be m.payloadBytes.length ++ m.payloadBytes))).set 3 b
          = 222 :: 173 :: 190 :: b ::
          (u8byte m.typeByte ++ (u32be m.payloadBytes.length ++ m.payloadBytes)) from rfl]
      refine deserialize_of_bad_magic _ _ _ _ _ (by simpa using hrestlen) ?_
      simp only [beVal, List.foldl, MAGIC_NUMBER]
      omega
  · intro h9k hk
    have hser : m.serialize =
        u32be MAGIC_NUMBER ++ ([m.typeByte] ++
          (u32be m.payloadBytes.length ++ m.payloadBytes)) := by
      rw [Msg.serialize]
      rw [show u8byte m.typeByte = [m.typeByte] by
        simp [u8byte, Nat.mod_eq_of_lt (typeByte_lt m)]]
    have htake : m.serialize.take k =
        u32be MAGIC_NUMBER ++ ([m.typeByte] ++
          (u32be m.payloadBytes.length ++ m.payloadBytes.take (k - 9))) := by
      rw [hser]
      rw [List.take_append_eq_append_take,
        List.take_of_length_le (by rw [u32be_length]; omega)]
      rw [@List.take_append_eq_append_take _ [m.typeByte] _ _,
        List.take_of_length_le (by simp; omega)]
      rw [@List.take_append_eq_append_take _ (u32be m.payloadBytes.length) _ _,
        List.take_of_length_le (by rw [u32be_length]; simp; omega)]
      simp only [u32be_length, List.length_cons, List.length_nil]
      rw [show k - 4 - 1 - 4 = k - 9 by omega]
    rw [htake]
    apply deserialize_short_payload _ _ h.2
    simp only [List.length_append, u32be_length, List.length_cons,
      List.length_nil, List.length_take]
    omega
  · intro hk
    rw [Msg.deserialize, if_pos (by simp [List.length_take]; omega)]

/-- Witness for C6: on the sample LOGIN_REQUEST, flipping the first magic
byte to 0 gives `INVALID_MAGIC_NUMBER`, truncating its 19-byte encoding to
10 bytes gives `PAYLOAD_SIZE_MISMATCH`, and truncating to 5 bytes gives
`DESERIALIZATION_FAILED`. -/
theorem header_integrity_witness :
    Msg.deserialize ((Msg.loginRequest (cpp "u") (cpp "p")).serialize.set 0 0)
        = .error .INVALID_MAGIC_NUMBER ∧
      Msg.deserialize ((Msg.loginRequest (cpp "u") (cpp "p")).serialize.take 10)
        = .error .PAYLOAD_SIZE_MISMATCH ∧
      Msg.deserialize ((Msg.loginRequest (cpp "u") (cpp "p")).serialize.take 5)
        = .error .DESERIALIZATION_FAILED :=
  ⟨(header_integrity (.loginRequest (cpp "u") (cpp "p")) (by decide) 0 0 10).1
      (by decide) (by decide),
    (header_integrity (.loginRequest (cpp "u") (cpp "p")) (by decide) 0 0 10).2.1
      (by decide) (by decide),
    (header_integrity (.loginRequest (cpp "u") (cpp "p")) (by decide) 0 0 5).2.2
      (by decide)⟩

/-- Counterexample to C6 as stated: truncating the sample LOGIN_REQUEST's
encoding below the 9-byte header (here: to 5 bytes, below
`9 + payload_size`) fails with `DESERIALIZATION_FAILED` — not
`PAYLOAD_SIZE_MISMATCH`, and `INSUFFICIENT_DATA` is not among the
`ProtocolError` values `Message::deserialize` can return at all. -/
theorem header_truncation_below_header_not_size_mismatch :
    Msg.deserialize ((Msg.loginRequest (cpp "u") (cpp "p")).serialize.take 5)
        = .error .DESERIALIZATION_FAILED ∧
      Msg.deserialize ((Msg.loginRequest (cpp "u") (cpp "p")).serialize.take 5)
        ≠ .error .PAYLOAD_SIZE_MISMATCH := by
  constructor
  · exact (header_integrity (.loginRequest (cpp "u") (cpp "p")) (by decide) 0 0 5).2.2
      (by decide)
  · rw [(header_integrity (.loginRequest (cpp "u") (cpp "p")) (by decide) 0 0 5).2.2
      (by decide)]
    simp

end NET

/-! ## The in-memory table model (`include/server/DatabaseAPI.hpp`) -/

/-- The server-side `DataType` enum (`INT = 0, DOUBLE = 1, STRING = 2,
BOOL = 3` — default `enum class` numbering). -/
inductive DataType where
  | INT
  | DOUBLE
  | STRING
  | BOOL
deriving DecidableEq, Repr

/-- `static_cast<int>` of a server `DataType` value. -/
def DataType.toInt : DataType → Nat
  | .INT => 0
  | .DOUBLE => 1
  | .STRING => 2
  | .BOOL => 3

/-- The server-side `ColumnDefinition`. -/
structure ColumnDefinition where
  name : CppStr
  type : DataType
  isPrimaryKey : Bool
deriving DecidableEq, Repr

/-- `Row`: one string cell per column, in declaration order. -/
abbrev Row := List CppStr

/-- `TableData`: table name, column definitions and row data. -/
structure TableData where
  name : CppStr
  columns : List ColumnDefinition
  rows : List Row
deriving DecidableEq, Repr

/-- Loop body of `TableData::getColumnIndex`. -/
def columnIndexFrom (colName : CppStr) : List ColumnDefinition → Nat → Int
  | [], _ => -1
  | c :: cs, i => if c.name = colName then (i : Int) else columnIndexFrom colName cs (i + 1)

/-- `TableData::getColumnIndex`: index of the first column with the given
name, `-1` if absent. -/
def TableData.getColumnIndex (t : TableData) (colName : CppStr) : Int :=
  columnIndexFrom colName t.columns 0

/-- `TableData::getColumnType`. Every call site first checks the index
against `getColumnIndex`, so the out-of-range `throw` of the C++ accessor
is unreachable; the default value stands in for it. -/
def TableData.getColumnType (t : TableData) (index : Nat) : DataType :=
  (t.columns.getD index ⟨[], .STRING, false⟩).type

/-! ## The WHERE-condition evaluator (`DMLHelpers`, `src/unnamed/part_010`) -/

/-- The whitespace set of `DMLHelpers::trim` (`" \t\n\r"`). -/
def isSpaceByte (b : Nat) : Bool := b = 32 || b = 9 || b = 10 || b = 13

/-- `DMLHelpers::trim`: `substr` from the first to the last byte that is
not whitespace; a string with no such byte is returned unchanged. -/
def trim (str : CppStr) : CppStr :=
  match str.findIdx? (fun b => !isSpaceByte b),
        str.reverse.findIdx? (fun b => !isSpaceByte b) with
  | some first, some r => (str.drop first).take (str.length - r - first)
  | _, _ => str

/-- `std::string::find`: position of the first occurrence of `pat`. -/
def findSub (s pat : CppStr) : Option Nat :=
  (List.range (s.length + 1)).find? (fun i => (s.drop i).take pat.length = pat)

/-- `from_chars`-style digit run at the front of a string. -/
def leadDigits (s : CppStr) : List Nat :=
  (s.takeWhile (fun b => decide (48 ≤ b) && decide (b ≤ 57))).map (fun b => b - 48)

/-- Numeric value of a digit run. -/
def digitsVal (ds : List Nat) : Nat := ds.foldl (fun a d => a * 10 + d) 0

/-- `convertToType<int>` via `std::from_chars`: an optional minus sign and
a nonempty leading digit run (trailing bytes ignored); out-of-range values
for a 32-bit `int` fail. -/
def parseIntFC (s : CppStr) : Option Int :=
  match s with
  | 45 :: rest =>
    if (leadDigits rest).isEmpty then none
    else if digitsVal (leadDigits rest) ≤ 2 ^ 31 then
      some (-(digitsVal (leadDigits rest) : Int))
    else none
  | _ =>
    if (leadDigits s).isEmpty then none
    else if digitsVal (leadDigits s) ≤ 2 ^ 31 - 1 then
      some (digitsVal (leadDigits s) : Int)
    else none

/-- `convertToType<double>` via `std::from_chars`, idealized to exact
rational arithmetic: an optional minus sign, a digit run optionally
containing one decimal point (at least one digit in total), and an
optional exponent part that is only consumed when a digit follows. The
rounding of the parsed value to binary64 is not modelled. -/
def parseRatFC (s : CppStr) : Option Rat :=
  let (neg, r1) : Bool × CppStr := match s with
    | 45 :: rest => (true, rest)
    | _ => (false, s)
  let intDs := leadDigits r1
  let r2 := r1.drop intDs.length
  let (fracDs, r3) : List Nat × CppStr := match r2 with
    | 46 :: rest => (leadDigits rest, rest.drop (leadDigits rest).length)
    | _ => ([], r2)
  if intDs.isEmpty ∧ fracDs.isEmpty then none
  else
    let mant : Rat := (digitsVal intDs : Rat) +
      (digitsVal fracDs : Rat) / ((10 : Rat) ^ fracDs.length)
    let expo : Int := match r3 with
      | 101 :: 45 :: rest =>
        if (leadDigits rest).isEmpty then 0 else -(digitsVal (leadDigits rest) : Int)
      | 101 :: 43 :: rest =>
        if (leadDigits rest).isEmpty then 0 else (digitsVal (leadDigits rest) : Int)
      | 101 :: rest =>
        if (leadDigits rest).isEmpty then 0 else (digitsVal (leadDigits rest) : Int)
      | 69 :: 45 :: rest =>
        if (leadDigits rest).isEmpty then 0 else -(digitsVal (leadDigits rest) : Int)
      | 69 :: 43 :: rest =>
        if (leadDigits rest).isEmpty then 0 else (digitsVal (leadDigits rest) : Int)
      | 69 :: rest =>
        if (leadDigits rest).isEmpty then 0 else (digitsVal (leadDigits rest) : Int)
      | _ => 0
    some ((if neg then -mant else mant) * (10 : Rat) ^ expo)

/-- ASCII lowering of `::tolower` as applied byte by byte. -/
def toLowerByte (b : Nat) : Nat := if 65 ≤ b ∧ b ≤ 90 then b + 32 else b

/-- `convertToType<bool>`: `"1"`, `"0"`, `"true"`, `"false"`,
case-insensitively. -/
def parseBoolCT (s : CppStr) : Option Bool :=
  let l := s.map toLowerByte
  if l = cpp "1" ∨ l = cpp "true" then some true
  else if l = cpp "0" ∨ l = cpp "false" then some false
  else none

/-- Lexicographic byte comparison (`std::string` `operator<`). -/
def cppLt : CppStr → CppStr → Bool
  | [], [] => false
  | [], _ :: _ => true
  | _ :: _, [] => false
  | a :: as, b :: bs => if a < b then true else if b < a then false else cppLt as bs

/-- The operator search loop of `evaluateSingleComparison`: try
`">=", "<=", "!=", "=", ">", "<"` in that order, take the first pattern
that occurs; an `"="` that is the second byte of `">="`, `"<="` or `"!="`
is skipped in favour of the later single-byte operators. -/
def opSearch (tc : CppStr) : Option (Nat × CppStr) :=
  match findSub tc (cpp ">=") with
  | some p => some (p, cpp ">=")
  | none =>
  match findSub tc (cpp "<=") with
  | some p => some (p, cpp "<=")
  | none =>
  match findSub tc (cpp "!=") with
  | some p => some (p, cpp "!=")
  | none =>
  match findSub tc (cpp "="), findSub tc (cpp ">"), findSub tc (cpp "<") with
  | some p, q1, q2 =>
    if 0 < p ∧ (tc.getD (p - 1) 0 = 62 ∨ tc.getD (p - 1) 0 = 60 ∨
        tc.getD (p - 1) 0 = 33) then
      match q1, q2 with
      | some q, _ => some (q, cpp ">")
      | none, some q => some (q, cpp "<")
      | none, none => none
    else some (p, cpp "=")
  | none, some q, _ => some (q, cpp ">")
  | none, none, some q => some (q, cpp "<")
  | none, none, none => none

/-- The typed comparison at the end of `evaluateSingleComparison`, by
declared column type. Failed parses, bool orderings and unknown operators
fall through to `false`. -/
def typedCompare (colType : DataType) (rowValueStr valueStr op : CppStr) : Bool :=
  match colType with
  | .INT =>
    match parseIntFC rowValueStr, parseIntFC valueStr with
    | some a, some b =>
      if op = cpp "=" then a = b
      else if op = cpp "!=" then a ≠ b
      else if op = cpp ">" then b < a
      else if op = cpp "<" then a < b
      else if op = cpp ">=" then b ≤ a
      else if op = cpp "<=" then a ≤ b
      else false
    | _, _ => false
  | .DOUBLE =>
    match parseRatFC rowValueStr, parseRatFC valueStr with
    | some a, some b =>
      if op = cpp "=" then a = b
      else if op = cpp "!=" then a ≠ b
      else if op = cpp ">" then b < a
      else if op = cpp "<" then a < b
      else if op = cpp ">=" then b ≤ a
      else if op = cpp "<=" then a ≤ b
      else false
    | _, _ => false
  | .BOOL =>
    match parseBoolCT rowValueStr, parseBoolCT valueStr with
    | some a, some b =>
      if op = cpp "=" then a = b
      else if op = cpp "!=" then a ≠ b
      else false
    | _, _ => false
  | .STRING =>
    if op = cpp "=" then rowValueStr = valueStr
    else if op = cpp "!=" then rowValueStr ≠ valueStr
    else if op = cpp ">" then cppLt valueStr rowValueStr
    else if op = cpp "<" then cppLt rowValueStr valueStr
    else if op = cpp ">=" then !cppLt rowValueStr valueStr
    else if op = cpp "<=" then !cppLt valueStr rowValueStr
    else false

/-- `DMLHelpers::evaluateSingleComparison`: trim, find the operator, split
into column name and literal, strip single quotes, resolve the column (a
missing column yields `false`), and compare both sides coerced to the
column's declared type. -/
def evaluateSingleComparison (row : Row) (tableMetadata : TableData)
    (condition : CppStr) : Bool :=
  let tc := trim condition
  if tc = [] then true
  else
    match opSearch tc with
    | none => false
    | some (opPos, op) =>
      let colName := trim (tc.take opPos)
      let valueStr0 := trim (tc.drop (opPos + op.length))
      let valueStr :=
        if 2 ≤ valueStr0.length ∧ valueStr0.getD 0 0 = 39 ∧
            valueStr0.getD (valueStr0.length - 1) 0 = 39 then
          (valueStr0.drop 1).take (valueStr0.length - 2)
        else valueStr0
      match tableMetadata.getColumnIndex colName with
      | .negSucc _ => false
      | .ofNat colIndex =>
        if colIndex ≥ row.length then false
        else
          typedCompare (tableMetadata.getColumnType colIndex)
            (row.getD colIndex []) valueStr op

theorem trim_length_le (s : CppStr) : (trim s).length ≤ s.length := by
  rw [trim]
  split
  · simp only [List.length_take, List.length_drop]
    omega
  · exact Nat.le_refl _

theorem findSub_bound {s pat : CppStr} {i : Nat} (h : findSub s pat = some i) :
    i + pat.length ≤ s.length := by
  rw [findSub] at h
  have hp := List.find?_some h
  have hm := List.mem_of_find?_eq_some h
  rw [List.mem_range] at hm
  rw [decide_eq_true_eq] at hp
  have hl := congrArg List.length hp
  simp only [List.length_take, List.length_drop] at hl
  omega

/-- `DMLHelpers::evaluateCondition`: trim; an empty condition is true;
split at the first `" OR "` (lowest precedence) and recurse, else at the
first `" AND "` and recurse, else evaluate as a single comparison. -/
def evaluateCondition (row : Row) (tableMetadata : TableData)
    (condition : CppStr) : Bool :=
  let tc := trim condition
  if tc = [] then true
  else
    match hOr : findSub tc (cpp " OR ") with
    | some orPos =>
      evaluateCondition row tableMetadata (tc.take orPos) ||
      evaluateCondition row tableMetadata (tc.drop (orPos + 4))
    | none =>
      match hAnd : findSub tc (cpp " AND ") with
      | some andPos =>
        evaluateCondition row tableMetadata (tc.take andPos) &&
        evaluateCondition row tableMetadata (tc.drop (andPos + 5))
      | none => evaluateSingleComparison row tableMetadata tc
termination_by condition.length
decreasing_by
  · have h1 := trim_length_le condition
    have h2 := findSub_bound hOr
    unfold tc at h2
    simp only [List.length_take, List.length_drop]
    simp [cpp] at h2
    omega
  · have h1 := trim_length_le condition
    have h2 := findSub_bound hOr
    unfold tc at h2
    simp only [List.length_take, List.length_drop]
    simp [cpp] at h2
    omega
  · have h1 := trim_length_le condition
    have h2 := findSub_bound hAnd
    unfold tc at h2
    simp only [List.length_take, List.length_drop]
    simp [cpp] at h2
    omega
  · have h1 := trim_length_le condition
    have h2 := findSub_bound hAnd
    unfold tc at h2
    simp only [List.length_take, List.length_drop]
    simp [cpp] at h2
    omega

theorem evaluateCondition_nil {row : Row} {t : TableData} {condition : CppStr}
    (h : trim condition = []) : evaluateCondition row t condition = true := by
  rw [evaluateCondition]
  simp [h]

theorem evaluateCondition_or {row : Row} {t : TableData} {condition : CppStr} {p : Nat}
    (h1 : trim condition ≠ [])
    (h2 : findSub (trim condition) (cpp " OR ") = some p) :
    evaluateCondition row t condition =
      (evaluateCondition row t ((trim condition).take p) ||
       evaluateCondition row t ((trim condition).drop (p + 4))) := by
  rw [evaluateCondition]
  rw [if_neg h1]
  split
  · rename_i q hq
    rw [h2] at hq
    cases hq
    rfl
  · rename_i hq
    rw [h2] at hq
    cases hq

theorem evaluateCondition_and {row : Row} {t : TableData} {condition : CppStr} {p : Nat}
    (h1 : trim condition ≠ [])
    (h2 : findSub (trim condition) (cpp " OR ") = none)
    (h3 : findSub (trim condition) (cpp " AND ") = some p) :
    evaluateCondition row t condition =
      (evaluateCondition row t ((trim condition).take p) &&
       evaluateCondition row t ((trim condition).drop (p + 5))) := by
  rw [evaluateCondition]
  rw [if_neg h1]
  split
  · rename_i q hq
    rw [h2] at hq
    cases hq
  · split
    · rename_i q hq
      rw [h3] at hq
      cases hq
      rfl
    · rename_i hq
      rw [h3] at hq
      cases hq

theorem evaluateCondition_single {row : Row} {t : TableData} {condition : CppStr}
    (h1 : trim condition ≠ [])
    (h2 : findSub (trim condition) (cpp " OR ") = none)
    (h3 : findSub (trim condition) (cpp " AND ") = none) :
    evaluateCondition row t condition =
      evaluateSingleComparison row t (trim condition) := by
  rw [evaluateCondition]
  rw [if_neg h1]
  split
  · rename_i q hq
    rw [h2] at hq
    cases hq
  · split
    · rename_i q hq
      rw [h3] at hq
      cases hq
    · rfl

theorem evaluateSingleComparison_missing_column {row : Row} {t : TableData}
    {c : CppStr} {p : Nat} {op : CppStr}
    (hop : opSearch (trim c) = some (p, op))
    (hcol : t.getColumnIndex (trim ((trim c).take p)) = -1) :
    evaluateSingleComparison row t c = false := by
  have htc : trim c ≠ [] := by
    intro h
    rw [h] at hop
    have h0 : opSearch ([] : CppStr) = none := by decide
    rw [h0] at hop
    cases hop
  have hcol2 : t.getColumnIndex (trim ((trim c).take p)) = Int.negSucc 0 := hcol
  simp only [evaluateSingleComparison]
  rw [if_neg htc]
  simp only [hop, hcol2]

/-- A one-column sample table (`age INT`, one row) used as a concrete
input for the WHERE-evaluator theorems. -/
def sampleTable : TableData :=
  ⟨cpp "users", [⟨cpp "age", DataType.INT, false⟩], [[cpp "25"]]⟩

/-- Its single row. -/
def sampleRow : Row := [cpp "25"]

/-- C4: the WHERE evaluator trims the condition and then proceeds by the
claimed grammar: a condition trimming to the empty string is true;
otherwise it splits at the first " OR " (loosest), else at the first
" AND ", recursing on the parts; otherwise it is a single comparison; a
single comparison whose column is absent from the table is false. -/
theorem evaluateCondition_grammar (row : Row) (t : TableData) (condition : CppStr) :
    (evaluateCondition row t [] = true) ∧
    (trim condition = [] → evaluateCondition row t condition = true) ∧
    (∀ p, trim condition ≠ [] → findSub (trim condition) (cpp " OR ") = some p →
      evaluateCondition row t condition =
        (evaluateCondition row t ((trim condition).take p) ||
         evaluateCondition row t ((trim condition).drop (p + 4)))) ∧
    (∀ p, trim condition ≠ [] → findSub (trim condition) (cpp " OR ") = none →
      findSub (trim condition) (cpp " AND ") = some p →
      evaluateCondition row t condition =
        (evaluateCondition row t ((trim condition).take p) &&
         evaluateCondition row t ((trim condition).drop (p + 5)))) ∧
    (trim condition ≠ [] → findSub (trim condition) (cpp " OR ") = none →
      findSub (trim condition) (cpp " AND ") = none →
      evaluateCondition row t condition =
        evaluateSingleComparison row t (trim condition)) ∧
    (∀ p op, opSearch (trim condition) = some (p, op) →
      t.getColumnIndex (trim ((trim condition).take p)) = -1 →
      evaluateSingleComparison row t condition = false) := by
  refine ⟨evaluateCondition_nil (by decide), fun h => evaluateCondition_nil h,
    fun p h1 h2 => evaluateCondition_or h1 h2,
    fun p h1 h2 h3 => evaluateCondition_and h1 h2 h3,
    fun h1 h2 h3 => evaluateCondition_single h1 h2 h3,
    fun p op hop hcol => evaluateSingleComparison_missing_column hop hcol⟩

/-- Concrete instantiation of C4's conjuncts on the sample table: an
empty condition, an " OR " split, an " AND " split, a plain comparison
and a comparison against a column the table does not have. -/
theorem evaluateCondition_grammar_witness :
    (trim (cpp " ") = [] → True) ∧
    (evaluateCondition sampleRow sampleTable [] = true) ∧
    (trim (cpp "") = [] ∧
     evaluateCondition sampleRow sampleTable (cpp "") = true) ∧
    (findSub (trim (cpp "age=25 OR age=30")) (cpp " OR ") = some 6 ∧
     evaluateCondition sampleRow sampleTable (cpp "age=25 OR age=30") =
       (evaluateCondition sampleRow sampleTable ((trim (cpp "age=25 OR age=30")).take 6) ||
        evaluateCondition sampleRow sampleTable ((trim (cpp "age=25 OR age=30")).drop (6 + 4)))) ∧
    (findSub (trim (cpp "age=25 AND age=30")) (cpp " AND ") = some 6 ∧
     evaluateCondition sampleRow sampleTable (cpp "age=25 AND age=30") =
       (evaluateCondition sampleRow sampleTable ((trim (cpp "age=25 AND age=30")).take 6) &&
        evaluateCondition sampleRow sampleTable ((trim (cpp "age=25 AND age=30")).drop (6 + 5)))) ∧
    (evaluateCondition sampleRow sampleTable (cpp "age=25") =
       evaluateSingleComparison sampleRow sampleTable (trim (cpp "age=25"))) ∧
    (opSearch (trim (cpp "foo=1")) = some (3, cpp "=") ∧
     sampleTable.getColumnIndex (trim ((trim (cpp "foo=1")).take 3)) = -1 ∧
     evaluateSingleComparison sampleRow sampleTable (cpp "foo=1") = false) := by
  refine ⟨fun _ => trivial,
    (evaluateCondition_grammar sampleRow sampleTable []).1,
    ⟨by decide, (evaluateCondition_grammar sampleRow sampleTable (cpp "")).2.1 (by decide)⟩,
    ⟨by decide, (evaluateCondition_grammar sampleRow sampleTable
        (cpp "age=25 OR age=30")).2.2.1 6 (by decide) (by decide)⟩,
    ⟨by decide, (evaluateCondition_grammar sampleRow sampleTable
        (cpp "age=25 AND age=30")).2.2.2.1 6 (by decide) (by decide) (by decide)⟩,
    (evaluateCondition_grammar sampleRow sampleTable
        (cpp "age=25")).2.2.2.2.1 (by decide) (by decide) (by decide),
    ⟨by decide, by decide,
      (evaluateCondition_grammar sampleRow sampleTable
        (cpp "foo=1")).2.2.2.2.2 3 (cpp "=") (by decide) (by decide)⟩⟩

/-- The split rule exactly as the claim words it: the raw condition (not
its trimmed form) is split at the first " OR " / " AND "; only the empty
raw condition is true. Stated for comparison with `evaluateCondition`. -/
def claimEvalCondition (row : Row) (tableMetadata : TableData)
    (condition : CppStr) : Bool :=
  if condition = [] then true
  else
    match hOr : findSub condition (cpp " OR ") with
    | some orPos =>
      claimEvalCondition row tableMetadata (condition.take orPos) ||
      claimEvalCondition row tableMetadata (condition.drop (orPos + 4))
    | none =>
      match hAnd : findSub condition (cpp " AND ") with
      | some andPos =>
        claimEvalCondition row tableMetadata (condition.take andPos) &&
        claimEvalCondition row tableMetadata (condition.drop (andPos + 5))
      | none => evaluateSingleComparison row tableMetadata condition
termination_by condition.length
decreasing_by
  · have h2 := findSub_bound hOr
    simp only [List.length_take]
    simp [cpp] at h2
    omega
  · have h2 := findSub_bound hOr
    simp only [List.length_drop]
    simp [cpp] at h2
    omega
  · have h2 := findSub_bound hAnd
    simp only [List.length_take]
    simp [cpp] at h2
    omega
  · have h2 := findSub_bound hAnd
    simp only [List.length_drop]
    simp [cpp] at h2
    omega

/-- The condition " OR age=25" separates the code from the claim's split
rule: the code trims first, sees no " OR " in "OR age=25", treats the
whole string as one comparison with column name "OR age" and returns
false; splitting the raw string at its leading " OR " would make the left
part empty, hence true. -/
theorem evaluateCondition_or_split_counterexample :
    evaluateCondition sampleRow sampleTable (cpp " OR age=25") = false ∧
    claimEvalCondition sampleRow sampleTable (cpp " OR age=25") = true := by
  constructor
  · rw [evaluateCondition]
    rw [if_neg (by decide)]
    split
    · rename_i q hq
      have h : findSub (trim (cpp " OR age=25")) (cpp " OR ") = none := by decide
      rw [h] at hq
      cases hq
    · split
      · rename_i q hq
        have h : findSub (trim (cpp " OR age=25")) (cpp " AND ") = none := by decide
        rw [h] at hq
        cases hq
      · decide
  · rw [claimEvalCondition]
    rw [if_neg (by decide)]
    split
    · rename_i q hq
      have h : findSub (cpp " OR age=25") (cpp " OR ") = some 0 := by decide
      rw [h] at hq
      cases hq
      have h0 : claimEvalCondition sampleRow sampleTable ((cpp " OR age=25").take 0) = true := by
        rw [claimEvalCondition]
        rfl
      rw [h0]
      rfl
    · rename_i hq
      have h : findSub (cpp " OR age=25") (cpp " OR ") = some 0 := by decide
      rw [h] at hq
      cases hq

/-! ## INSERT with primary-key check (`DMLOperations::Impl::insert`, `src/unnamed/part_010`) -/

/-- Default cell value by column type for columns the caller did not
supply (`"" / "0" / "0.0" / "0"`). -/
def defaultValueFor : DataType → CppStr
  | .STRING => []
  | .INT => cpp "0"
  | .DOUBLE => cpp "0.0"
  | .BOOL => cpp "0"

/-- Lookup in the `std::map<std::string, std::string>` of supplied values,
modelled as an association list with unique keys. -/
def assocFind (m : List (CppStr × CppStr)) (k : CppStr) : Option CppStr :=
  (m.find? (fun kv => kv.1 = k)).map (fun kv => kv.2)

/-- Index of the primary-key column the insert loops end up with: the
loops overwrite `primaryKeyColIndex` at every primary-key column, so the
last one wins. -/
def lastPkIndex : List ColumnDefinition → Option Nat
  | [] => none
  | c :: cs =>
    match lastPkIndex cs with
    | some i => some (i + 1)
    | none => if c.isPrimaryKey then some 0 else none

/-- Column loop of the by-name insert overload: each column is written at
`getColumnIndex` of its name with the supplied value or the type default,
and the `(primaryKeyColIndex, primaryKeyValue)` pair is overwritten at
every primary-key column using the cell just written. -/
def insertRowLoop (t : TableData) (values : List (CppStr × CppStr)) :
    List ColumnDefinition → Row → Option (Nat × CppStr) → Row × Option (Nat × CppStr)
  | [], newRow, pk => (newRow, pk)
  | colDef :: rest, newRow, pk =>
    match t.getColumnIndex colDef.name with
    | .negSucc _ => insertRowLoop t values rest newRow pk
    | .ofNat colIndex =>
      let v := match assocFind values colDef.name with
        | some v => v
        | none => defaultValueFor colDef.type
      let newRow2 := newRow.set colIndex v
      insertRowLoop t values rest newRow2
        (if colDef.isPrimaryKey then some (colIndex, newRow2.getD colIndex []) else pk)

/-- Column loop of the positional insert overload: column `i` receives
`values_by_index[i]` when present, else the type default. -/
def insertIndexLoop (vals : List CppStr) :
    List ColumnDefinition → Nat → Row → Option (Nat × CppStr) → Row × Option (Nat × CppStr)
  | [], _, newRow, pk => (newRow, pk)
  | colDef :: rest, i, newRow, pk =>
    let v := if i < vals.length then vals.getD i [] else defaultValueFor colDef.type
    let newRow2 := newRow.set i v
    insertIndexLoop vals rest (i + 1) newRow2
      (if colDef.isPrimaryKey then some (i, newRow2.getD i []) else pk)

/-- Duplicate scan of both insert overloads over the existing rows. -/
def pkDuplicate (rows : List Row) (pkIdx : Nat) (pkVal : CppStr) : Bool :=
  rows.any (fun r => decide (pkIdx < r.length) && decide (r.getD pkIdx [] = pkVal))

/-- `DMLOperations::Impl::insert` (map overload): build the row, and when
a primary-key column exists refuse with result `0` if an existing row
carries the same value at that column; otherwise append the row and
return `1`. The `std::cerr` uniqueness report accompanying the `0` result
is elided; the unchanged table models that no row is added. -/
def insertByName (t : TableData) (values : List (CppStr × CppStr)) : Nat × TableData :=
  let res := insertRowLoop t values t.columns (List.replicate t.columns.length []) none
  match res.2 with
  | none => (1, { t with rows := t.rows ++ [res.1] })
  | some (pkIdx, pkVal) =>
    if pkDuplicate t.rows pkIdx pkVal then (0, t)
    else (1, { t with rows := t.rows ++ [res.1] })

/-- `DMLOperations::Impl::insert` (positional overload): refuse with `0`
when more values than columns are supplied, else proceed as the map
overload. -/
def insertByIndex (t : TableData) (vals : List CppStr) : Nat × TableData :=
  if t.columns.length < vals.length then (0, t)
  else
    let res := insertIndexLoop vals t.columns 0 (List.replicate t.columns.length []) none
    match res.2 with
    | none => (1, { t with rows := t.rows ++ [res.1] })
    | some (pkIdx, pkVal) =>
      if pkDuplicate t.rows pkIdx pkVal then (0, t)
      else (1, { t with rows := t.rows ++ [res.1] })

/-- A single INSERT call through either overload. -/
inductive InsertOp where
  | byName (values : List (CppStr × CppStr))
  | byIndex (vals : List CppStr)

/-- Table state after one INSERT call. -/
def applyInsert (t : TableData) : InsertOp → TableData
  | .byName vs => (insertByName t vs).2
  | .byIndex vs => (insertByIndex t vs).2

/-- Schema well-formedness used for the uniqueness invariant: column
names are pairwise distinct. -/
def namesNodup (t : TableData) : Bool :=
  decide (t.columns.map ColumnDefinition.name).Nodup

/-- Every row has exactly one cell per column. -/
def rowsFull (t : TableData) : Bool :=
  t.rows.all (fun r => decide (r.length = t.columns.length))

/-- Pairwise distinctness of the values in the primary-key column checked
by the insert loops. -/
def pkNodup (t : TableData) : Bool :=
  match lastPkIndex t.columns with
  | some i => decide ((t.rows.map (fun r => r.getD i [])).Nodup)
  | none => true

theorem lastPkIndex_lt {cols : List ColumnDefinition} {i : Nat}
    (h : lastPkIndex cols = some i) : i < cols.length := by
  induction cols generalizing i with
  | nil => exact absurd h (by simp [lastPkIndex])
  | cons c cs ih =>
    cases hcs : lastPkIndex cs with
    | some j =>
      simp only [lastPkIndex, hcs] at h
      cases h
      have := ih hcs
      simp only [List.length_cons]
      omega
    | none =>
      simp only [lastPkIndex, hcs] at h
      by_cases hc : c.isPrimaryKey
      · rw [if_pos hc] at h
        cases h
        simp
      · rw [if_neg hc] at h
        cases h

theorem columnIndexFrom_self :
    ∀ (cols : List ColumnDefinition) (j k : Nat) (hj : j < cols.length),
      (cols.map ColumnDefinition.name).Nodup →
      columnIndexFrom (cols.get ⟨j, hj⟩).name cols k = Int.ofNat (k + j) := by
  intro cols
  induction cols with
  | nil =>
    intro j k hj
    simp at hj
  | cons c cs ih =>
    intro j k hj hnd
    rw [List.map_cons, List.nodup_cons] at hnd
    cases j with
    | zero =>
      simp [columnIndexFrom, Int.ofNat_eq_coe]
    | succ j =>
      have hj2 : j < cs.length := by
        simp only [List.length_cons] at hj
        omega
      have hmem : (cs.get ⟨j, hj2⟩).name ∈ cs.map ColumnDefinition.name :=
        List.mem_map_of_mem _ (cs.get_mem _ _)
      have hne : ¬(c.name = (cs.get ⟨j, hj2⟩).name) := fun he => hnd.1 (he ▸ hmem)
      have hget : (c :: cs).get ⟨j + 1, hj⟩ = cs.get ⟨j, hj2⟩ := rfl
      rw [hget]
      simp only [columnIndexFrom]
      rw [if_neg hne]
      rw [ih j (k + 1) hj2 hnd.2]
      congr 1
      omega

theorem getColumnIndex_self {t : TableData} {j : Nat} (hj : j < t.columns.length)
    (hnd : namesNodup t = true) :
    t.getColumnIndex ((t.columns.get ⟨j, hj⟩).name) = Int.ofNat j := by
  rw [namesNodup, decide_eq_true_eq] at hnd
  have h := columnIndexFrom_self t.columns j 0 hj hnd
  rw [TableData.getColumnIndex, h]
  congr 1
  omega

theorem getD_set_ne {α : Type} (l : List α) (a d : α) {i j : Nat} (h : i ≠ j) :
    (l.set i a).getD j d = l.getD j d := by
  simp only [List.getD]
  rw [List.get?_eq_getElem?, List.get?_eq_getElem?, List.getElem?_set_ne h]

theorem insertIndexLoop_spec (vals : List CppStr) :
    ∀ (cs : List ColumnDefinition) (m : Nat) (row : Row)
      (pk : Option (Nat × CppStr)),
      (insertIndexLoop vals cs m row pk).1.length = row.length ∧
      (∀ i, i < m →
        (insertIndexLoop vals cs m row pk).1.getD i [] = row.getD i []) ∧
      (insertIndexLoop vals cs m row pk).2 =
        (match lastPkIndex cs with
         | some j => some (m + j, (insertIndexLoop vals cs m row pk).1.getD (m + j) [])
         | none => pk) := by
  intro cs
  induction cs with
  | nil =>
    intro m row pk
    refine ⟨rfl, fun i _ => rfl, ?_⟩
    simp [insertIndexLoop, lastPkIndex]
  | cons c rest ih =>
    intro m row pk
    simp only [insertIndexLoop]
    obtain ⟨ih1, ih2, ih3⟩ := ih (m + 1)
      (row.set m (if m < vals.length then vals.getD m [] else defaultValueFor c.type))
      (if c.isPrimaryKey then
        some (m, (row.set m (if m < vals.length then vals.getD m []
          else defaultValueFor c.type)).getD m [])
       else pk)
    refine ⟨by rw [ih1]; exact List.length_set row _ _, ?_, ?_⟩
    · intro i hi
      rw [ih2 i (by omega)]
      exact getD_set_ne row _ [] (by omega)
    · cases hcs : lastPkIndex rest with
      | some j =>
        simp only [lastPkIndex, hcs]
        rw [ih3]
        simp only [hcs]
        have harith : m + 1 + j = m + (j + 1) := by omega
        rw [harith]
      | none =>
        simp only [lastPkIndex, hcs]
        rw [ih3]
        simp only [hcs]
        by_cases hc : c.isPrimaryKey
        · rw [if_pos hc]
          simp only [hc, if_true, Nat.add_zero] at ih2 ⊢
          rw [ih2 m (by omega)]
        · rw [if_neg hc]
          simp [hc]

theorem insertRowLoop_spec (t : TableData) (values : List (CppStr × CppStr)) :
    ∀ (cs : List ColumnDefinition) (m : Nat) (row : Row)
      (pk : Option (Nat × CppStr)),
      (∀ j (hj : j < cs.length),
        t.getColumnIndex ((cs.get ⟨j, hj⟩).name) = Int.ofNat (m + j)) →
      (insertRowLoop t values cs row pk).1.length = row.length ∧
      (∀ i, i < m →
        (insertRowLoop t values cs row pk).1.getD i [] = row.getD i []) ∧
      (insertRowLoop t values cs row pk).2 =
        (match lastPkIndex cs with
         | some j => some (m + j, (insertRowLoop t values cs row pk).1.getD (m + j) [])
         | none => pk) := by
  intro cs
  induction cs with
  | nil =>
    intro m row pk _
    refine ⟨rfl, fun i _ => rfl, ?_⟩
    simp [insertRowLoop, lastPkIndex]
  | cons c rest ih =>
    intro m row pk hidx
    have hid0 : t.getColumnIndex c.name = Int.ofNat m := by
      have h := hidx 0 (by simp)
      simpa using h
    simp only [insertRowLoop, hid0]
    obtain ⟨ih1, ih2, ih3⟩ := ih (m + 1)
      (row.set m (match assocFind values c.name with
        | some v => v
        | none => defaultValueFor c.type))
      (if c.isPrimaryKey then
        some (m, (row.set m (match assocFind values c.name with
          | some v => v
          | none => defaultValueFor c.type)).getD m [])
       else pk)
      (fun j hj => by
        have h := hidx (j + 1) (by simpa using Nat.succ_lt_succ hj)
        have hget : (c :: rest).get ⟨j + 1, by simpa using Nat.succ_lt_succ hj⟩ =
            rest.get ⟨j, hj⟩ := rfl
        rw [hget] at h
        rw [h]
        congr 1
        omega)
    refine ⟨by rw [ih1]; exact List.length_set row _ _, ?_, ?_⟩
    · intro i hi
      rw [ih2 i (by omega)]
      exact getD_set_ne row _ [] (by omega)
    · cases hcs : lastPkIndex rest with
      | some j =>
        simp only [lastPkIndex, hcs]
        rw [ih3]
        simp only [hcs]
        have harith : m + 1 + j = m + (j + 1) := by omega
        rw [harith]
      | none =>
        simp only [lastPkIndex, hcs]
        rw [ih3]
        simp only [hcs]
        by_cases hc : c.isPrimaryKey
        · rw [if_pos hc]
          simp only [hc, if_true, Nat.add_zero] at ih2 ⊢
          rw [ih2 m (by omega)]
        · rw [if_neg hc]
          simp [hc]

theorem pkDuplicate_iff {rows : List Row} {pkIdx : Nat} {pkVal : CppStr} :
    pkDuplicate rows pkIdx pkVal = true ↔
      ∃ r ∈ rows, pkIdx < r.length ∧ r.getD pkIdx [] = pkVal := by
  rw [pkDuplicate, List.any_eq_true]
  constructor
  · rintro ⟨r, hr, hp⟩
    rw [Bool.and_eq_true, decide_eq_true_eq, decide_eq_true_eq] at hp
    exact ⟨r, hr, hp⟩
  · rintro ⟨r, hr, h1, h2⟩
    exact ⟨r, hr, by rw [Bool.and_eq_true, decide_eq_true_eq, decide_eq_true_eq]; exact ⟨h1, h2⟩⟩

theorem insertByName_preserves (t : TableData) (values : List (CppStr × CppStr))
    (hnames : namesNodup t = true) (hfull : rowsFull t = true)
    (hpk : pkNodup t = true) :
    (insertByName t values).2.name = t.name ∧
    (insertByName t values).2.columns = t.columns ∧
    rowsFull (insertByName t values).2 = true ∧
    pkNodup (insertByName t values).2 = true := by
  have hidx : ∀ j (hj : j < t.columns.length),
      t.getColumnIndex ((t.columns.get ⟨j, hj⟩).name) = Int.ofNat (0 + j) := by
    intro j hj
    rw [getColumnIndex_self hj hnames]
    congr 1
    omega
  obtain ⟨h1, h2, h3⟩ := insertRowLoop_spec t values t.columns 0
    (List.replicate t.columns.length []) none hidx
  rw [List.length_replicate] at h1
  have hfullrows : ∀ r ∈ t.rows, r.length = t.columns.length := by
    intro r hr
    have := List.all_eq_true.mp hfull r hr
    exact decide_eq_true_eq.mp this
  cases hcs : lastPkIndex t.columns with
  | none =>
    simp only [hcs] at h3
    simp only [insertByName, h3]
    refine ⟨by trivial, by trivial, ?_, ?_⟩
    · rw [rowsFull, List.all_eq_true]
      intro r hr
      rw [decide_eq_true_eq]
      simp only [List.mem_append, List.mem_singleton] at hr
      rcases hr with hr | hr
      · exact hfullrows r hr
      · rw [hr]
        exact h1
    · simp only [pkNodup, hcs]
  | some i =>
    simp only [hcs, Nat.zero_add] at h3
    simp only [insertByName, h3]
    by_cases hdup : pkDuplicate t.rows i
        ((insertRowLoop t values t.columns (List.replicate t.columns.length [])
          none).1.getD i []) = true
    · rw [if_pos hdup]
      exact ⟨by trivial, by trivial, hfull, hpk⟩
    · rw [if_neg hdup]
      refine ⟨by trivial, by trivial, ?_, ?_⟩
      · rw [rowsFull, List.all_eq_true]
        intro r hr
        rw [decide_eq_true_eq]
        simp only [List.mem_append, List.mem_singleton] at hr
        rcases hr with hr | hr
        · exact hfullrows r hr
        · rw [hr]
          exact h1
      · simp only [pkNodup, hcs] at hpk ⊢
        rw [decide_eq_true_eq] at hpk ⊢
        rw [List.map_append]
        simp only [List.map_singleton]
        rw [List.nodup_append]
        refine ⟨hpk, by simp, ?_⟩
        intro a ha hb
        simp only [List.mem_singleton] at hb
        rw [List.mem_map] at ha
        obtain ⟨r, hr, hra⟩ := ha
        apply hdup
        rw [pkDuplicate_iff]
        refine ⟨r, hr, ?_, ?_⟩
        · rw [hfullrows r hr]
          exact lastPkIndex_lt hcs
        · rw [hra, hb]

theorem insertByIndex_preserves (t : TableData) (vals : List CppStr)
    (hfull : rowsFull t = true) (hpk : pkNodup t = true) :
    (insertByIndex t vals).2.name = t.name ∧
    (insertByIndex t vals).2.columns = t.columns ∧
    rowsFull (insertByIndex t vals).2 = true ∧
    pkNodup (insertByIndex t vals).2 = true := by
  obtain ⟨h1, h2, h3⟩ := insertIndexLoop_spec vals t.columns 0
    (List.replicate t.columns.length []) none
  rw [List.length_replicate] at h1
  have hfullrows : ∀ r ∈ t.rows, r.length = t.columns.length := by
    intro r hr
    have := List.all_eq_true.mp hfull r hr
    exact decide_eq_true_eq.mp this
  by_cases hlen : t.columns.length < vals.length
  · simp only [insertByIndex, if_pos hlen]
    exact ⟨by trivial, by trivial, hfull, hpk⟩
  · cases hcs : lastPkIndex t.columns with
    | none =>
      simp only [hcs] at h3
      simp only [insertByIndex, if_neg hlen, h3]
      refine ⟨by trivial, by trivial, ?_, ?_⟩
      · rw [rowsFull, List.all_eq_true]
        intro r hr
        rw [decide_eq_true_eq]
        simp only [List.mem_append, List.mem_singleton] at hr
        rcases hr with hr | hr
        · exact hfullrows r hr
        · rw [hr]
          exact h1
      · simp only [pkNodup, hcs]
    | some i =>
      simp only [hcs, Nat.zero_add] at h3
      simp only [insertByIndex, if_neg hlen, h3]
      by_cases hdup : pkDuplicate t.rows i
          ((insertIndexLoop vals t.columns 0 (List.replicate t.columns.length [])
            none).1.getD i []) = true
      · rw [if_pos hdup]
        exact ⟨by trivial, by trivial, hfull, hpk⟩
      · rw [if_neg hdup]
        refine ⟨by trivial, by trivial, ?_, ?_⟩
        · rw [rowsFull, List.all_eq_true]
          intro r hr
          rw [decide_eq_true_eq]
          simp only [List.mem_append, List.mem_singleton] at hr
          rcases hr with hr | hr
          · exact hfullrows r hr
          · rw [hr]
            exact h1
        · simp only [pkNodup, hcs] at hpk ⊢
          rw [decide_eq_true_eq] at hpk ⊢
          rw [List.map_append]
          simp only [List.map_singleton]
          rw [List.nodup_append]
          refine ⟨hpk, by simp, ?_⟩
          intro a ha hb
          simp only [List.mem_singleton] at hb
          rw [List.mem_map] at ha
          obtain ⟨r, hr, hra⟩ := ha
          apply hdup
          rw [pkDuplicate_iff]
          refine ⟨r, hr, ?_, ?_⟩
          · rw [hfullrows r hr]
            exact lastPkIndex_lt hcs
          · rw [hra, hb]

theorem applyInsert_preserves (t : TableData) (op : InsertOp)
    (hnames : namesNodup t = true) (hfull : rowsFull t = true)
    (hpk : pkNodup t = true) :
    namesNodup (applyInsert t op) = true ∧ rowsFull (applyInsert t op) = true ∧
    pkNodup (applyInsert t op) = true := by
  cases op with
  | byName values =>
    obtain ⟨_, hcols, hf, hp⟩ := insertByName_preserves t values hnames hfull hpk
    refine ⟨?_, hf, hp⟩
    rw [namesNodup] at hnames ⊢
    rw [applyInsert, hcols]
    exact hnames
  | byIndex vals =>
    obtain ⟨_, hcols, hf, hp⟩ := insertByIndex_preserves t vals hfull hpk
    refine ⟨?_, hf, hp⟩
    rw [namesNodup] at hnames ⊢
    rw [applyInsert, hcols]
    exact hnames

/-- C2: an INSERT through either overload whose new row repeats the
primary-key value of an existing row returns `0` and leaves the table
unchanged, and on a well-formed table (distinct column names, one cell
per column in every row) any sequence of INSERT operations keeps the
values in the checked primary-key column pairwise distinct. -/
theorem insert_primary_key_uniqueness (t : TableData) :
    (∀ values pkIdx pkVal,
      (insertRowLoop t values t.columns
          (List.replicate t.columns.length []) none).2 = some (pkIdx, pkVal) →
      (∃ r ∈ t.rows, pkIdx < r.length ∧ r.getD pkIdx [] = pkVal) →
      insertByName t values = (0, t)) ∧
    (∀ vals pkIdx pkVal, ¬t.columns.length < vals.length →
      (insertIndexLoop vals t.columns 0
          (List.replicate t.columns.length []) none).2 = some (pkIdx, pkVal) →
      (∃ r ∈ t.rows, pkIdx < r.length ∧ r.getD pkIdx [] = pkVal) →
      insertByIndex t vals = (0, t)) ∧
    (∀ ops : List InsertOp, namesNodup t = true → rowsFull t = true →
      pkNodup t = true →
      rowsFull (List.foldl applyInsert t ops) = true ∧
      pkNodup (List.foldl applyInsert t ops) = true) := by
  refine ⟨?_, ?_, ?_⟩
  · intro values pkIdx pkVal hloop hex
    simp only [insertByName, hloop]
    rw [if_pos (pkDuplicate_iff.mpr hex)]
  · intro vals pkIdx pkVal hlen hloop hex
    simp only [insertByIndex, if_neg hlen, hloop]
    rw [if_pos (pkDuplicate_iff.mpr hex)]
  · intro ops
    induction ops generalizing t with
    | nil =>
      intro _ hfull hpk
      exact ⟨hfull, hpk⟩
    | cons op rest ih =>
      intro hnames hfull hpk
      obtain ⟨hn2, hf2, hp2⟩ := applyInsert_preserves t op hnames hfull hpk
      exact ih (applyInsert t op) hn2 hf2 hp2

/-- A two-column sample table with an `id` primary key, used as a
concrete input for the INSERT uniqueness theorem. -/
def pkSampleTable : TableData :=
  ⟨cpp "people",
   [⟨cpp "id", DataType.INT, true⟩, ⟨cpp "name", DataType.STRING, false⟩],
   [[cpp "1", cpp "ann"]]⟩

/-- Concrete instantiation of C2: inserting `id = 1` twice (by name and
by index) into the sample table is refused with result `0` and an
unchanged table, and a sequence of such INSERT calls keeps the `id`
column duplicate-free. -/
theorem insert_primary_key_uniqueness_witness :
    ((insertRowLoop pkSampleTable [(cpp "id", cpp "1"), (cpp "name", cpp "bob")]
        pkSampleTable.columns
        (List.replicate pkSampleTable.columns.length []) none).2
      = some (0, cpp "1") ∧
     insertByName pkSampleTable [(cpp "id", cpp "1"), (cpp "name", cpp "bob")]
      = (0, pkSampleTable)) ∧
    ((insertIndexLoop [cpp "1"] pkSampleTable.columns 0
        (List.replicate pkSampleTable.columns.length []) none).2
      = some (0, cpp "1") ∧
     insertByIndex pkSampleTable [cpp "1"] = (0, pkSampleTable)) ∧
    (namesNodup pkSampleTable = true ∧ rowsFull pkSampleTable = true ∧
     pkNodup pkSampleTable = true ∧
     rowsFull (List.foldl applyInsert pkSampleTable
        [InsertOp.byName [(cpp "id", cpp "2")], InsertOp.byIndex [cpp "2"]]) = true ∧
     pkNodup (List.foldl applyInsert pkSampleTable
        [InsertOp.byName [(cpp "id", cpp "2")], InsertOp.byIndex [cpp "2"]]) = true) := by
  refine ⟨⟨by decide, ?_⟩, ⟨by decide, ?_⟩, by decide, by decide, by decide, ?_, ?_⟩
  · exact (insert_primary_key_uniqueness pkSampleTable).1
      [(cpp "id", cpp "1"), (cpp "name", cpp "bob")] 0 (cpp "1") (by decide)
      ⟨[cpp "1", cpp "ann"], by decide, by decide, by decide⟩
  · exact (insert_primary_key_uniqueness pkSampleTable).2.1
      [cpp "1"] 0 (cpp "1") (by decide) (by decide)
      ⟨[cpp "1", cpp "ann"], by decide, by decide, by decide⟩
  · exact ((insert_primary_key_uniqueness pkSampleTable).2.2
      [InsertOp.byName [(cpp "id", cpp "2")], InsertOp.byIndex [cpp "2"]]
      (by decide) (by decide) (by decide)).1
  · exact ((insert_primary_key_uniqueness pkSampleTable).2.2
      [InsertOp.byName [(cpp "id", cpp "2")], InsertOp.byIndex [cpp "2"]]
      (by decide) (by decide) (by decide)).2

/-! ## Permission checking (`DatabaseAPI.hpp`, `Database.cpp`) -/

/-- `PermissionType` (`include/server/DatabaseAPI.hpp`). -/
inductive PermissionType where
  | SELECT
  | INSERT
  | UPDATE
  | DELETE
  | CREATE_TABLE
  | DROP_TABLE
  | CREATE_USER
  | DROP_USER
  | GRANT_PERMISSION
  | REVOKE_PERMISSION
deriving DecidableEq, Repr

/-- One permission record of a user. -/
structure PermissionEntry where
  type : PermissionType
  objectType : CppStr
  objectName : CppStr
deriving DecidableEq, Repr

/-- A user account. -/
structure User where
  username : CppStr
  hashedPassword : CppStr
  permissions : List PermissionEntry
deriving DecidableEq, Repr

/-- `User::hasPermission`: the first record matching on type and object
type authorizes when its object name is empty (wildcard) or equals the
requested name. -/
def User.hasPermission (u : User) (p_type : PermissionType)
    (obj_type obj_name : CppStr) : Bool :=
  u.permissions.any (fun perm =>
    decide (perm.type = p_type) && decide (perm.objectType = obj_type) &&
    (decide (perm.objectName = []) || decide (perm.objectName = obj_name)))

/-- Lookup in the `std::map<std::string, User>` of accounts, modelled as
an association list with unique keys. -/
def findUser (users : List (CppStr × User)) (k : CppStr) : Option User :=
  (users.find? (fun kv => kv.1 = k)).map (fun kv => kv.2)

/-- `Database::Impl::checkPermissionInternal`: an empty username is
refused outright, `admin` always passes, and otherwise the stored account
decides via `hasPermission` (an unknown username is refused). -/
def checkPermissionInternal (users : List (CppStr × User)) (username : CppStr)
    (permission : PermissionType) (objectType objectName : CppStr) : Bool :=
  if username = [] then false
  else if username = cpp "admin" then true
  else
    match findUser users username with
    | some u => u.hasPermission permission objectType objectName
    | none => false

/-- C5: the permission check authorizes exactly when a user is logged in
(nonempty username) and either that name is admin or the stored account
holds a record matching on operation and object type whose object name is
empty or equal to the requested one. -/
theorem checkPermission_spec (users : List (CppStr × User)) (username : CppStr)
    (p : PermissionType) (objType objName : CppStr) :
    checkPermissionInternal users username p objType objName = true ↔
      (username ≠ [] ∧
       (username = cpp "admin" ∨
        ∃ u, findUser users username = some u ∧
          ∃ perm ∈ u.permissions, perm.type = p ∧ perm.objectType = objType ∧
            (perm.objectName = [] ∨ perm.objectName = objName))) := by
  rw [checkPermissionInternal]
  by_cases h0 : username = []
  · rw [if_pos h0]
    simp [h0]
  · rw [if_neg h0]
    by_cases ha : username = cpp "admin"
    · rw [if_pos ha]
      constructor
      · intro _
        exact ⟨h0, Or.inl ha⟩
      · intro _
        rfl
    · rw [if_neg ha]
      cases hu : findUser users username with
      | none =>
        simp only []
        constructor
        · intro hcontra
          cases hcontra
        · rintro ⟨_, hor⟩
          rcases hor with hadmin | ⟨u, hfind, _⟩
          · exact absurd hadmin ha
          · cases hfind
      | some u =>
        simp only []
        rw [User.hasPermission, List.any_eq_true]
        constructor
        · rintro ⟨perm, hmem, hperm⟩
          rw [Bool.and_eq_true, Bool.and_eq_true, Bool.or_eq_true,
            decide_eq_true_eq, decide_eq_true_eq, decide_eq_true_eq,
            decide_eq_true_eq] at hperm
          exact ⟨h0, Or.inr ⟨u, rfl, perm, hmem,
            hperm.1.1, hperm.1.2, hperm.2⟩⟩
        · rintro ⟨_, hor⟩
          rcases hor with hadmin | ⟨u2, hfind, perm, hmem, h1, h2, h3⟩
          · exact absurd hadmin ha
          · cases hfind
            refine ⟨perm, hmem, ?_⟩
            rw [Bool.and_eq_true, Bool.and_eq_true, Bool.or_eq_true,
              decide_eq_true_eq, decide_eq_true_eq, decide_eq_true_eq,
              decide_eq_true_eq]
            exact ⟨⟨h1, h2⟩, h3⟩

/-- An account stored under the empty username, holding a wildcard SELECT
record on tables. -/
def ghostUser : User := ⟨[], [], [⟨PermissionType.SELECT, cpp "TABLE", []⟩]⟩

/-- With no user logged in (empty requesting username) the check refuses
even though an account stored under the empty name holds a matching
record, so authorization is not equivalent to admin-or-matching-record
alone: the nonempty-username condition is needed. -/
theorem checkPermission_empty_username_counterexample :
    checkPermissionInternal [([], ghostUser)] [] PermissionType.SELECT
        (cpp "TABLE") (cpp "users") = false ∧
    (([] : CppStr) = cpp "admin" ∨
      ∃ u, findUser [([], ghostUser)] [] = some u ∧
        ∃ perm ∈ u.permissions, perm.type = PermissionType.SELECT ∧
          perm.objectType = cpp "TABLE" ∧
          (perm.objectName = [] ∨ perm.objectName = cpp "users")) := by
  refine ⟨by decide, Or.inr ⟨ghostUser, by decide, ?_⟩⟩
  refine ⟨⟨PermissionType.SELECT, cpp "TABLE", []⟩, by decide, by decide, by decide, ?_⟩
  left
  rfl

/-! ## The server driver's SELECT handler (`src/driver/server_main.cpp`) -/

/-- WHERE string rebuilt by `executeQuery` from the request's structured
condition: `column + " " + operator_str + " '" + value + "'"` (bytes 32
and 39 are the space and the single quote), empty when the request has no
condition. -/
def selectWhereClause (request : NET.QueryRequestData) : CppStr :=
  match request.where_condition with
  | some w => w.column ++ [32] ++ w.operator_str ++ [32, 39] ++ w.value.value ++ [39]
  | none => []

/-- The `SELECT` case of `executeQuery`: filter the table's rows through
the WHERE evaluator (`DMLOperations::select` with no ORDER BY), then
build the response from every column of the result's table metadata —
`request.select_columns` is never consulted. With zero matching rows the
handler answers `QueryResponse({}, {})`. Cells are read by
`getString(0..columnCount-1)`; the out-of-range throw for short rows is
not modelled (`getD` stands in). -/
def executeQuerySelect (t : TableData) (request : NET.QueryRequestData) :
    NET.QueryResponseData :=
  let resultSet := t.rows.filter
    (fun row => evaluateCondition row t (selectWhereClause request))
  if 0 < resultSet.length then
    ⟨t.columns.map ColumnDefinition.name,
     resultSet.map (fun r =>
       ⟨(List.range t.columns.length).map (fun i => r.getD i [])⟩),
     true, []⟩
  else ⟨[], [], true, []⟩

/-- A three-column table for the projection test. -/
def c7Table : TableData :=
  ⟨cpp "users",
   [⟨cpp "id", DataType.INT, true⟩, ⟨cpp "name", DataType.STRING, false⟩,
    ⟨cpp "age", DataType.INT, false⟩],
   [[cpp "1", cpp "ann", cpp "30"]]⟩

/-- A SELECT request asking only for the `name` column. -/
def c7Request : NET.QueryRequestData :=
  ⟨0x11, cpp "token_1001", cpp "testdb", cpp "users", [], [cpp "name"],
   [], [], none⟩

/-- C7: the SELECT handler's response always carries every column of the
table (or none, when no row matches) — the projection list of the request
plays no part — and in particular the request asking only for `name`
against a three-column table is answered with all three columns. -/
theorem executeQuery_select_ignores_projection :
    (∀ (t : TableData) (request : NET.QueryRequestData),
      (executeQuerySelect t request).column_names =
        (if 0 < (t.rows.filter (fun row =>
            evaluateCondition row t (selectWhereClause request))).length then
          t.columns.map ColumnDefinition.name
        else [])) ∧
    c7Request.select_columns = [cpp "name"] ∧
    (executeQuerySelect c7Table c7Request).column_names =
      [cpp "id", cpp "name", cpp "age"] := by
  have hmain : ∀ (t : TableData) (request : NET.QueryRequestData),
      (executeQuerySelect t request).column_names =
        (if 0 < (t.rows.filter (fun row =>
            evaluateCondition row t (selectWhereClause request))).length then
          t.columns.map ColumnDefinition.name
        else []) := by
    intro t request
    rw [executeQuerySelect]
    split
    · rfl
    · rfl
  refine ⟨hmain, by decide, ?_⟩
  rw [hmain]
  have hclause : selectWhereClause c7Request = [] := rfl
  rw [hclause]
  have hfil : c7Table.rows.filter (fun row => evaluateCondition row c7Table []) =
      c7Table.rows := by
    rw [List.filter_eq_self]
    intro r hr
    exact evaluateCondition_nil (by decide)
  rw [hfil]
  rfl

/-! ## Session tokens of the server driver (`src/driver/server_main.cpp`) -/

/-- Decimal digits of `std::to_string` on a nonnegative int, over an
explicit fuel so the kernel can evaluate it (the fuel `n + 1` always
suffices). -/
def natToDecimalFuel : Nat → Nat → List Nat
  | 0, _ => []
  | fuel + 1, n =>
    if n < 10 then [48 + n]
    else natToDecimalFuel fuel (n / 10) ++ [48 + n % 10]

/-- `std::to_string` of a nonnegative int, as bytes. -/
def natToDecimal (n : Nat) : CppStr := natToDecimalFuel (n + 1) n

/-- Numeric value read back from decimal bytes. -/
def decVal (ds : List Nat) : Nat := ds.foldl (fun a b => a * 10 + (b - 48)) 0

theorem decVal_append_digit (xs : List Nat) (d : Nat) :
    decVal (xs ++ [d]) = decVal xs * 10 + (d - 48) := by
  rw [decVal, decVal, List.foldl_append]
  rfl

theorem decVal_natToDecimalFuel :
    ∀ (fuel n : Nat), n < 10 ^ fuel → decVal (natToDecimalFuel fuel n) = n := by
  intro fuel
  induction fuel with
  | zero =>
    intro n hn
    have h0 : n = 0 := by simpa using hn
    subst h0
    rfl
  | succ fuel ih =>
    intro n hn
    rw [natToDecimalFuel]
    by_cases h10 : n < 10
    · rw [if_pos h10]
      rw [decVal]
      simp only [List.foldl_cons, List.foldl_nil]
      omega
    · rw [if_neg h10]
      rw [decVal_append_digit]
      have hdiv : n / 10 < 10 ^ fuel := by
        rw [pow_succ] at hn
        omega
      rw [ih (n / 10) hdiv]
      omega

theorem decVal_natToDecimal (n : Nat) : decVal (natToDecimal n) = n := by
  rw [natToDecimal]
  exact decVal_natToDecimalFuel (n + 1) n (by
    calc n < 10 ^ n := Nat.lt_pow_self (by omega) n
    _ ≤ 10 ^ (n + 1) := Nat.pow_le_pow_right (by omega) (by omega))

theorem natToDecimal_injective {a b : Nat} (h : natToDecimal a = natToDecimal b) :
    a = b := by
  have := congrArg decVal h
  rw [decVal_natToDecimal, decVal_natToDecimal] at this
  exact this

/-- The token string `"token_" + std::to_string(k)`. -/
def tokenStr (k : Nat) : CppStr := cpp "token_" ++ natToDecimal k

theorem tokenStr_injective {a b : Nat} (h : tokenStr a = tokenStr b) : a = b := by
  rw [tokenStr, tokenStr] at h
  exact natToDecimal_injective (List.append_cancel_left h)

/-- The driver's session globals: the static counter of
`generateSimpleToken` (starting at 1000), `current_token` and
`is_logged_in`. -/
structure SessionState where
  counter : Nat
  current_token : CppStr
  is_logged_in : Bool
deriving DecidableEq, Repr

/-- The driver's mutable state: session globals plus the database the
queries act on (the tables of the `Database` instance). -/
structure ServerState where
  session : SessionState
  tables : List (CppStr × TableData)
deriving DecidableEq, Repr

/-- Globals at program start: counter 1000, empty token, logged out. -/
def initialServer : ServerState := ⟨⟨1000, [], false⟩, []⟩

/-- `validateToken`. -/
def validateToken (s : SessionState) (token : CppStr) : Bool :=
  s.is_logged_in && decide (token = s.current_token)

/-- `handleLogin`: on the fixed `admin`/`123456` credentials, bump the
counter, install the fresh token and reply `LoginSuccess`; otherwise
reply `LoginFailure` and leave the globals alone. -/
def handleLogin (s : ServerState) (username password : CppStr) :
    NET.Msg × ServerState :=
  if username = cpp "admin" ∧ password = cpp "123456" then
    (NET.Msg.loginSuccess (tokenStr (s.session.counter + 1)) 1001,
     ⟨⟨s.session.counter + 1, tokenStr (s.session.counter + 1), true⟩, s.tables⟩)
  else
    (NET.Msg.loginFailure (cpp "Invalid username or password"), s)

/-- `handleQuery`: a request whose token fails `validateToken` is
answered `ErrorResponse("Invalid or expired token", 401)` before
`executeQuery` runs; otherwise the query executes against the tables.
`exec` stands for `executeQuery` so that the early return is established
for every possible query engine. -/
def handleQuery
    (exec : List (CppStr × TableData) → NET.QueryRequestData →
      NET.QueryResponseData × List (CppStr × TableData))
    (s : ServerState) (request : NET.QueryRequestData) : NET.Msg × ServerState :=
  if validateToken s.session request.session_token then
    let r := exec s.tables request
    (NET.Msg.queryResponse r.1, ⟨s.session, r.2⟩)
  else
    (NET.Msg.errorResponse (cpp "Invalid or expired token") 401, s)

/-- One client interaction as the driver's dispatch loop sees it. -/
inductive ServerEvent where
  | login (username password : CppStr)
  | query (request : NET.QueryRequestData)

/-- State transition of one event (responses dropped). -/
def stepServer
    (exec : List (CppStr × TableData) → NET.QueryRequestData →
      NET.QueryResponseData × List (CppStr × TableData))
    (s : ServerState) : ServerEvent → ServerState
  | .login u p => (handleLogin s u p).2
  | .query q => (handleQuery exec s q).2

/-- State after a sequence of events. -/
def runEvents
    (exec : List (CppStr × TableData) → NET.QueryRequestData →
      NET.QueryResponseData × List (CppStr × TableData))
    (s : ServerState) (events : List ServerEvent) : ServerState :=
  events.foldl (stepServer exec) s

/-- Number of successful logins in a sequence of events. -/
def loginCount : List ServerEvent → Nat
  | [] => 0
  | .login u p :: rest =>
    (if u = cpp "admin" ∧ p = cpp "123456" then 1 else 0) + loginCount rest
  | .query _ :: rest => loginCount rest

/-- Tokens issued by the successful logins of a sequence of events, in
order, when the token counter starts at `c`. -/
def issuedTokens (c : Nat) : List ServerEvent → List CppStr
  | [] => []
  | .login u p :: rest =>
    if u = cpp "admin" ∧ p = cpp "123456" then
      tokenStr (c + 1) :: issuedTokens (c + 1) rest
    else issuedTokens c rest
  | .query _ :: rest => issuedTokens c rest

theorem issuedTokens_eq :
    ∀ (events : List ServerEvent) (c : Nat),
      issuedTokens c events =
        (List.range (loginCount events)).map (fun i => tokenStr (c + 1 + i)) := by
  intro events
  induction events with
  | nil =>
    intro c
    simp [issuedTokens, loginCount]
  | cons e rest ih =>
    intro c
    cases e with
    | query q =>
      rw [issuedTokens, loginCount, ih c]
    | login u p =>
      by_cases hc : u = cpp "admin" ∧ p = cpp "123456"
      · rw [issuedTokens, if_pos hc, loginCount, if_pos hc, ih (c + 1)]
        rw [show 1 + loginCount rest = loginCount rest + 1 by omega]
        rw [List.range_succ_eq_map]
        simp only [List.map_cons, List.map_map]
        congr 1
        apply List.map_congr_left
        intro i _
        simp only [Function.comp_apply]
        congr 1
        omega
      · rw [issuedTokens, if_neg hc, loginCount, if_neg hc, ih c]
        rw [Nat.zero_add]

theorem runEvents_session
    (exec : List (CppStr × TableData) → NET.QueryRequestData →
      NET.QueryResponseData × List (CppStr × TableData)) :
    ∀ (events : List ServerEvent) (s : ServerState),
      (runEvents exec s events).session =
        (if loginCount events = 0 then s.session
         else ⟨s.session.counter + loginCount events,
               tokenStr (s.session.counter + loginCount events), true⟩) := by
  intro events
  induction events with
  | nil =>
    intro s
    simp [runEvents, loginCount]
  | cons e rest ih =>
    intro s
    have hstep : runEvents exec s (e :: rest) =
        runEvents exec (stepServer exec s e) rest := rfl
    rw [hstep, ih]
    cases e with
    | query q =>
      have hsess : (stepServer exec s (.query q)).session = s.session := by
        rw [stepServer, handleQuery]
        split
        · rfl
        · rfl
      rw [hsess]
      rw [show loginCount (ServerEvent.query q :: rest) = loginCount rest from rfl]
    | login u p =>
      by_cases hc : u = cpp "admin" ∧ p = cpp "123456"
      · have hsess : (stepServer exec s (.login u p)).session =
            ⟨s.session.counter + 1, tokenStr (s.session.counter + 1), true⟩ := by
          rw [stepServer, handleLogin, if_pos hc]
        rw [hsess]
        rw [show loginCount (ServerEvent.login u p :: rest) =
          (if u = cpp "admin" ∧ p = cpp "123456" then 1 else 0) + loginCount rest
          from rfl]
        rw [if_pos hc]
        by_cases hr : loginCount rest = 0
        · rw [if_pos hr, if_neg (by omega), hr]
        · rw [if_neg hr, if_neg (by omega)]
          have h1 : s.session.counter + 1 + loginCount rest =
              s.session.counter + (1 + loginCount rest) := by omega
          rw [h1]
      · have hsess : (stepServer exec s (.login u p)).session = s.session := by
          rw [stepServer, handleLogin, if_neg hc]
        rw [hsess]
        rw [show loginCount (ServerEvent.login u p :: rest) =
          (if u = cpp "admin" ∧ p = cpp "123456" then 1 else 0) + loginCount rest
          from rfl]
        rw [if_neg hc, Nat.zero_add]

/-- C9: a QUERY_REQUEST whose session token was never issued by a
successful login, or was issued but superseded by a later login, is
answered with `ErrorResponse("Invalid or expired token", 401)` and the
server state — tables included — is unchanged, whatever the query engine
would have done. -/
theorem query_unissued_token_rejected
    (exec : List (CppStr × TableData) → NET.QueryRequestData →
      NET.QueryResponseData × List (CppStr × TableData))
    (events : List ServerEvent) (q : NET.QueryRequestData)
    (h : q.session_token ∉ issuedTokens 1000 events ∨
         q.session_token ∈ (issuedTokens 1000 events).dropLast) :
    handleQuery exec (runEvents exec initialServer events) q =
      (NET.Msg.errorResponse (cpp "Invalid or expired token") 401,
       runEvents exec initialServer events) := by
  have hsess := runEvents_session exec events initialServer
  have hval : validateToken (runEvents exec initialServer events).session
      q.session_token = false := by
    by_cases hn : loginCount events = 0
    · rw [if_pos hn] at hsess
      rw [validateToken, hsess]
      rfl
    · rw [if_neg hn] at hsess
      rw [validateToken, hsess]
      have hne : ¬(q.session_token =
          tokenStr (initialServer.session.counter + loginCount events)) := by
        have hiss := issuedTokens_eq events 1000
        rcases h with h | h
        · intro he
          apply h
          rw [hiss, List.mem_map]
          refine ⟨loginCount events - 1, ?_, ?_⟩
          · rw [List.mem_range]
            omega
          · rw [he]
            congr 1
            rw [show initialServer.session.counter = 1000 from rfl]
            omega
        · intro he
          obtain ⟨m, hm⟩ : ∃ m, loginCount events = m + 1 := ⟨loginCount events - 1, by omega⟩
          rw [hiss, hm, List.range_succ, List.map_append, List.map_singleton,
            List.dropLast_concat, List.mem_map] at h
          obtain ⟨i, hi, hti⟩ := h
          rw [List.mem_range] at hi
          have heq : 1000 + 1 + i = initialServer.session.counter + loginCount events :=
            tokenStr_injective (by rw [hti, he])
          rw [show initialServer.session.counter = 1000 from rfl] at heq
          omega
      simp [hne]
  rw [handleQuery, hval]
  rfl

/-- A pair of successful admin logins. -/
def c9Events : List ServerEvent :=
  [ServerEvent.login (cpp "admin") (cpp "123456"),
   ServerEvent.login (cpp "admin") (cpp "123456")]

/-- A query engine that answers every request with an empty result and
leaves the tables alone, standing in for `executeQuery`. -/
def c9Exec : List (CppStr × TableData) → NET.QueryRequestData →
    NET.QueryResponseData × List (CppStr × TableData) :=
  fun tables _ => (⟨[], [], true, []⟩, tables)

/-- A SELECT request presenting the superseded first token. -/
def c9StaleRequest : NET.QueryRequestData :=
  ⟨0x11, tokenStr 1001, cpp "testdb", cpp "users", [], [], [], [], none⟩

/-- A SELECT request presenting a token no login ever issued. -/
def c9BogusRequest : NET.QueryRequestData :=
  ⟨0x11, cpp "bogus", cpp "testdb", cpp "users", [], [], [], [], none⟩

/-- Concrete instantiation of C9: after two logins, the first (superseded)
token and a never-issued token are both answered 401 with the state kept. -/
theorem query_unissued_token_rejected_witness :
    (tokenStr 1001 ∈ (issuedTokens 1000 c9Events).dropLast ∧
     handleQuery c9Exec (runEvents c9Exec initialServer c9Events) c9StaleRequest =
       (NET.Msg.errorResponse (cpp "Invalid or expired token") 401,
        runEvents c9Exec initialServer c9Events)) ∧
    (cpp "bogus" ∉ issuedTokens 1000 c9Events ∧
     handleQuery c9Exec (runEvents c9Exec initialServer c9Events) c9BogusRequest =
       (NET.Msg.errorResponse (cpp "Invalid or expired token") 401,
        runEvents c9Exec initialServer c9Events)) := by
  refine ⟨⟨by decide, ?_⟩, ⟨by decide, ?_⟩⟩
  · exact query_unissued_token_rejected c9Exec c9Events c9StaleRequest
      (Or.inr (by decide))
  · exact query_unissued_token_rejected c9Exec c9Events c9BogusRequest
      (Or.inl (by decide))

/-! ## Table persistence (`Database::Impl::saveTableToFile` /
`loadTableFromFile`, `src/src/server/Database.cpp`; the `.meta` file is
written by `DDLOperations` at `createTable`) -/

/-- One `std::getline(stream, s, d)` loop: split the content at the
delimiter. A final delimiter-terminated segment yields no trailing empty
string (the last `getline` fails at end of file), and empty content
yields no strings at all. -/
def getlineStep (d : Nat) (b : Nat) (acc : List CppStr) : List CppStr :=
  if b = d then [] :: acc
  else
    match acc with
    | [] => [[b]]
    | c :: cs => (b :: c) :: cs

/-- All strings a `getline` loop with delimiter `d` reads from `s`. -/
def getDelim (d : Nat) (s : CppStr) : List CppStr := s.foldr (getlineStep d) []

/-- The body of `saveTableToFile`'s row loop: cells joined with commas. -/
def csvJoin : List CppStr → CppStr
  | [] => []
  | c :: cs => c ++ cs.flatMap (fun x => 44 :: x)

/-- The `.dat` bytes `saveTableToFile` writes: one comma-joined line per
row, each terminated by a newline. -/
def saveTableData (rows : List Row) : CppStr :=
  rows.flatMap (fun row => csvJoin row ++ [10])

/-- The `.meta` bytes `createTable` writes: per column
`name,<int type>,<0 or 1>` terminated by a newline. -/
def saveTableMeta (cols : List ColumnDefinition) : CppStr :=
  cols.flatMap (fun c =>
    c.name ++ [44] ++ natToDecimal c.type.toInt ++ [44] ++
    (if c.isPrimaryKey then cpp "1" else cpp "0") ++ [10])

/-- One `std::getline(ss, out, d)` call: the text before the first
delimiter, and the remainder when the delimiter was found. -/
def splitFirst (d : Nat) (s : CppStr) : CppStr × Option CppStr :=
  let pre := s.takeWhile (fun b => decide (b ≠ d))
  if pre.length = s.length then (pre, none)
  else (pre, some (s.drop (pre.length + 1)))

/-- `std::stoi` on the strings at hand: skip leading whitespace, then
parse as `convertToType<int>` does (a failed parse is the thrown
exception). -/
def stoi (s : CppStr) : Option Int := parseIntFC (s.dropWhile isSpaceByte)

/-- One line of the `.meta` loop: `name`, then the type integer (a failed
`std::stoi` or an unknown value aborts the load), then the rest of the
line as the primary-key flag, `"1"` meaning true. A line with no comma
leaves the type string empty and `std::stoi` throws. -/
def parseMetaColumn (line : CppStr) : Option ColumnDefinition :=
  match (splitFirst 44 line).2 with
  | none => none
  | some rest =>
    let name := (splitFirst 44 line).1
    let type_str := (splitFirst 44 rest).1
    let is_pk_str := ((splitFirst 44 rest).2).getD []
    match stoi type_str with
    | none => none
    | some t =>
      if t = 0 then some ⟨name, DataType.INT, is_pk_str = cpp "1"⟩
      else if t = 1 then some ⟨name, DataType.DOUBLE, is_pk_str = cpp "1"⟩
      else if t = 2 then some ⟨name, DataType.STRING, is_pk_str = cpp "1"⟩
      else if t = 3 then some ⟨name, DataType.BOOL, is_pk_str = cpp "1"⟩
      else none

/-- The `.meta` loop over all its lines, aborting at the first bad one. -/
def parseMetaLines : List CppStr → Option (List ColumnDefinition)
  | [] => some []
  | line :: rest =>
    match parseMetaColumn line, parseMetaLines rest with
    | some c, some cs => some (c :: cs)
    | _, _ => none

/-- The `.dat` loop: every nonempty line becomes one row of comma-split
cells (empty lines are skipped). -/
def loadRows (dataContent : CppStr) : List Row :=
  ((getDelim 10 dataContent).filter (fun l => !l.isEmpty)).map (getDelim 44)

/-- `loadTableFromFile`, given the two files' bytes (`none` when the
`.dat` file does not exist): name from the argument, columns from the
`.meta` lines, rows from the `.dat` lines. -/
def loadTableFromFile (tableName : CppStr) (metaContent : CppStr)
    (dataContent : Option CppStr) : Option TableData :=
  match parseMetaLines (getDelim 10 metaContent) with
  | none => none
  | some cols =>
    some ⟨tableName, cols,
      match dataContent with
      | some d => loadRows d
      | none => []⟩

/-- A cell (or column name) survives the CSV round trip only if it holds
neither the comma nor the newline byte. -/
def cellOk (c : CppStr) : Bool :=
  c.all (fun b => decide (b ≠ 44) && decide (b ≠ 10))

/-- A row survives only if it is nonempty, its cells are clean and its
last cell is nonempty (a trailing empty cell is dropped by the cell loop,
and a row whose line is empty is skipped entirely). -/
def rowOk (r : Row) : Bool :=
  !r.isEmpty && r.all cellOk && !(decide (r.getLast? = some ([] : CppStr)))

theorem foldr_getlineStep_clean {d : Nat} :
    ∀ (L line : CppStr) (X : List CppStr), (∀ b ∈ L, b ≠ d) →
      L.foldr (getlineStep d) (line :: X) = (L ++ line) :: X := by
  intro L
  induction L with
  | nil =>
    intro line X _
    simp
  | cons a L2 ih =>
    intro line X hL
    rw [List.foldr_cons, ih line X (fun b hb => hL b (List.mem_cons_of_mem a hb))]
    simp only [getlineStep]
    rw [if_neg (hL a (List.mem_cons_self a L2))]
    rfl

theorem getDelim_append_delim {d : Nat} (L rest : CppStr)
    (hL : ∀ b ∈ L, b ≠ d) :
    getDelim d (L ++ d :: rest) = L :: getDelim d rest := by
  rw [getDelim, List.foldr_append]
  have h1 : List.foldr (getlineStep d) [] (d :: rest) = [] :: getDelim d rest := by
    simp [getlineStep, getDelim]
  rw [h1, foldr_getlineStep_clean L [] _ hL, List.append_nil]

theorem getDelim_single {d : Nat} :
    ∀ (L : CppStr), (∀ b ∈ L, b ≠ d) → L ≠ [] → getDelim d L = [L] := by
  intro L
  induction L with
  | nil =>
    intro _ hne
    exact absurd rfl hne
  | cons a L2 ih =>
    intro hL _
    by_cases h2 : L2 = []
    · subst h2
      rw [getDelim, List.foldr_cons, List.foldr_nil]
      simp only [getlineStep]
      rw [if_neg (hL a (List.mem_cons_self a []))]
    · have hrec := ih (fun b hb => hL b (List.mem_cons_of_mem a hb)) h2
      rw [getDelim, List.foldr_cons]
      rw [getDelim] at hrec
      rw [hrec]
      simp only [getlineStep]
      rw [if_neg (hL a (List.mem_cons_self a L2))]

theorem cellOk_bytes {c : CppStr} (h : cellOk c = true) :
    ∀ b ∈ c, b ≠ 44 ∧ b ≠ 10 := by
  intro b hb
  have := List.all_eq_true.mp h b hb
  rw [Bool.and_eq_true, decide_eq_true_eq, decide_eq_true_eq] at this
  exact this

theorem csvJoin_cons2 (c : CppStr) (rest : Row) (h : rest ≠ []) :
    csvJoin (c :: rest) = c ++ 44 :: csvJoin rest := by
  cases rest with
  | nil => exact absurd rfl h
  | cons r2 rs =>
    rw [csvJoin, csvJoin, List.flatMap_cons]
    rfl

theorem csvJoin_bytes :
    ∀ (r : Row), (∀ c ∈ r, cellOk c = true) →
      ∀ b ∈ csvJoin r, b ≠ 10 ∧ b ≠ 44 ∨ b = 44 := by
  intro r
  induction r with
  | nil =>
    intro _ b hb
    cases hb
  | cons c rest ih =>
    intro hcells b hb
    rw [csvJoin] at hb
    rw [List.mem_append] at hb
    rcases hb with hb | hb
    · have := cellOk_bytes (hcells c (List.mem_cons_self c rest)) b hb
      exact Or.inl ⟨this.2, this.1⟩
    · rw [List.mem_flatMap] at hb
      obtain ⟨x, hx, hbx⟩ := hb
      rw [List.mem_cons] at hbx
      rcases hbx with hbx | hbx
      · exact Or.inr hbx
      · have := cellOk_bytes (hcells x (List.mem_cons_of_mem c hx)) b hbx
        exact Or.inl ⟨this.2, this.1⟩

theorem csvJoin_no10 (r : Row) (hcells : ∀ c ∈ r, cellOk c = true) :
    ∀ b ∈ csvJoin r, b ≠ 10 := by
  intro b hb
  rcases csvJoin_bytes r hcells b hb with h | h
  · exact h.1
  · omega

theorem getDelim_csvJoin :
    ∀ (r : Row), (∀ c ∈ r, cellOk c = true) → r ≠ [] →
      r.getLast? ≠ some ([] : CppStr) → getDelim 44 (csvJoin r) = r := by
  intro r
  induction r with
  | nil =>
    intro _ hne _
    exact absurd rfl hne
  | cons c rest ih =>
    intro hcells _ hlast
    by_cases h2 : rest = []
    · subst h2
      rw [csvJoin, List.flatMap_nil, List.append_nil]
      have hcne : c ≠ [] := by
        intro hc
        apply hlast
        rw [hc]
        rfl
      exact getDelim_single c
        (fun b hb => (cellOk_bytes (hcells c (List.mem_cons_self c [])) b hb).1) hcne
    · rw [csvJoin_cons2 c rest h2]
      rw [getDelim_append_delim c (csvJoin rest)
        (fun b hb => (cellOk_bytes (hcells c (List.mem_cons_self c rest)) b hb).1)]
      rw [ih (fun x hx => hcells x (List.mem_cons_of_mem c hx)) h2 ?_]
      cases rest with
      | nil => exact absurd rfl h2
      | cons r2 rs =>
        rw [List.getLast?_cons_cons] at hlast
        exact hlast

theorem csvJoin_ne_nil (r : Row) (hne : r ≠ [])
    (hlast : r.getLast? ≠ some ([] : CppStr)) : csvJoin r ≠ [] := by
  cases r with
  | nil => exact absurd rfl hne
  | cons c rest =>
    cases rest with
    | nil =>
      rw [csvJoin, List.flatMap_nil, List.append_nil]
      intro hc
      apply hlast
      rw [hc]
      rfl
    | cons r2 rs =>
      rw [csvJoin_cons2 c (r2 :: rs) (by simp)]
      simp

theorem loadRows_saveTableData :
    ∀ (rows : List Row), rows.all rowOk = true →
      loadRows (saveTableData rows) = rows := by
  intro rows
  induction rows with
  | nil =>
    intro _
    rfl
  | cons r rs ih =>
    intro hall
    rw [List.all_cons, Bool.and_eq_true] at hall
    have hr := hall.1
    rw [rowOk, Bool.and_eq_true, Bool.and_eq_true] at hr
    have hne : r ≠ [] := by
      have := hr.1.1
      simpa using this
    have hcells : ∀ c ∈ r, cellOk c = true := by
      intro c hc
      exact List.all_eq_true.mp hr.1.2 c hc
    have hlast : r.getLast? ≠ some ([] : CppStr) := by
      have := hr.2
      simpa using this
    have hsplit : saveTableData (r :: rs) = csvJoin r ++ 10 :: saveTableData rs := by
      rw [saveTableData, saveTableData, List.flatMap_cons, List.append_assoc]
      rfl
    rw [hsplit, loadRows, getDelim_append_delim (csvJoin r) (saveTableData rs)
      (csvJoin_no10 r hcells)]
    rw [List.filter_cons_of_pos (by
      rw [Bool.not_eq_true']
      cases hcsv : csvJoin r with
      | nil => exact absurd hcsv (csvJoin_ne_nil r hne hlast)
      | cons x xs => rfl)]
    rw [List.map_cons, getDelim_csvJoin r hcells hne hlast]
    have := ih hall.2
    rw [loadRows] at this
    rw [this]

theorem takeWhile_append_delim {d : Nat} :
    ∀ (L : CppStr), (∀ b ∈ L, b ≠ d) → ∀ rest,
      (L ++ d :: rest).takeWhile (fun b => decide (b ≠ d)) = L := by
  intro L
  induction L with
  | nil =>
    intro _ rest
    simp [List.takeWhile]
  | cons a L2 ih =>
    intro hL rest
    rw [List.cons_append, List.takeWhile_cons]
    rw [decide_eq_true (hL a (List.mem_cons_self a L2))]
    rw [ih (fun b hb => hL b (List.mem_cons_of_mem a hb)) rest]
    rfl

theorem splitFirst_append {d : Nat} (L rest : CppStr) (hL : ∀ b ∈ L, b ≠ d) :
    splitFirst d (L ++ d :: rest) = (L, some rest) := by
  rw [splitFirst]
  rw [takeWhile_append_delim L hL rest]
  rw [if_neg (by
    rw [List.length_append, List.length_cons]
    omega)]
  rw [show L ++ d :: rest = (L ++ [d]) ++ rest by simp]
  rw [List.drop_left' (by rw [List.length_append]; rfl)]

theorem natToDecimalFuel_digits :
    ∀ (fuel n : Nat), ∀ b ∈ natToDecimalFuel fuel n, 48 ≤ b ∧ b ≤ 57 := by
  intro fuel
  induction fuel with
  | zero =>
    intro n b hb
    cases hb
  | succ fuel ih =>
    intro n b hb
    rw [natToDecimalFuel] at hb
    by_cases h10 : n < 10
    · rw [if_pos h10] at hb
      rw [List.mem_singleton] at hb
      omega
    · rw [if_neg h10] at hb
      rw [List.mem_append] at hb
      rcases hb with hb | hb
      · exact ih (n / 10) b hb
      · rw [List.mem_singleton] at hb
        have := Nat.mod_lt n (show 0 < 10 by omega)
        omega

theorem natToDecimal_digits (n : Nat) :
    ∀ b ∈ natToDecimal n, 48 ≤ b ∧ b ≤ 57 :=
  natToDecimalFuel_digits (n + 1) n

theorem stoi_toInt (ty : DataType) :
    stoi (natToDecimal (DataType.toInt ty)) = some ((DataType.toInt ty : Nat) : Int) := by
  cases ty <;> decide

theorem parseMetaColumn_enc (c : ColumnDefinition) (hname : cellOk c.name = true) :
    parseMetaColumn (c.name ++ [44] ++ natToDecimal c.type.toInt ++ [44] ++
      (if c.isPrimaryKey then cpp "1" else cpp "0")) = some c := by
  have hline : c.name ++ [44] ++ natToDecimal c.type.toInt ++ [44] ++
      (if c.isPrimaryKey then cpp "1" else cpp "0") =
      c.name ++ 44 :: (natToDecimal c.type.toInt ++ 44 ::
        (if c.isPrimaryKey then cpp "1" else cpp "0")) := by
    simp
  rw [parseMetaColumn, hline]
  rw [splitFirst_append c.name _ (fun b hb => (cellOk_bytes hname b hb).1)]
  simp only []
  rw [splitFirst_append (natToDecimal c.type.toInt) _ (fun b hb => by
    have := natToDecimal_digits c.type.toInt b hb
    omega)]
  simp only [Option.getD_some]
  rw [stoi_toInt c.type]
  cases hty : c.type <;> cases hpk : c.isPrimaryKey <;>
    simp [DataType.toInt, cpp] <;> rw [← hty, ← hpk]

theorem metaLine_no10 (c : ColumnDefinition) (hname : cellOk c.name = true) :
    ∀ b ∈ c.name ++ [44] ++ natToDecimal c.type.toInt ++ [44] ++
      (if c.isPrimaryKey then cpp "1" else cpp "0"), b ≠ 10 := by
  intro b hb
  simp only [List.append_assoc, List.mem_append] at hb
  rcases hb with hb | hb | hb | hb | hb
  · exact (cellOk_bytes hname b hb).2
  · rw [List.mem_singleton] at hb
    omega
  · have := natToDecimal_digits c.type.toInt b hb
    omega
  · rw [List.mem_singleton] at hb
    omega
  · cases hpk : c.isPrimaryKey <;> rw [hpk] at hb <;>
      simp only [if_true, if_false, cpp] at hb <;> simp at hb <;> omega

theorem parseMetaLines_enc :
    ∀ (cols : List ColumnDefinition),
      cols.all (fun c => cellOk c.name) = true →
      parseMetaLines (getDelim 10 (saveTableMeta cols)) = some cols := by
  intro cols
  induction cols with
  | nil =>
    intro _
    rfl
  | cons c cs ih =>
    intro hall
    rw [List.all_cons, Bool.and_eq_true] at hall
    have hsplit : saveTableMeta (c :: cs) =
        (c.name ++ [44] ++ natToDecimal c.type.toInt ++ [44] ++
          (if c.isPrimaryKey then cpp "1" else cpp "0")) ++
        10 :: saveTableMeta cs := by
      rw [saveTableMeta, saveTableMeta, List.flatMap_cons]
      simp
    rw [hsplit, getDelim_append_delim _ _ (metaLine_no10 c hall.1)]
    rw [parseMetaLines, parseMetaColumn_enc c hall.1, ih hall.2]

/-- A table both of whose files read back exactly: column names and cells
free of commas and newlines, every row nonempty with a nonempty last
cell. -/
def tableFilesOk (t : TableData) : Bool :=
  t.columns.all (fun c => cellOk c.name) && t.rows.all rowOk

/-- C8: for a table whose column names and cells are free of the comma
and newline bytes of the two file formats, and whose rows are nonempty
with nonempty last cells, loading the written files restores the table
exactly — name, column definitions and row sequence. -/
theorem save_load_roundtrip (t : TableData) (h : tableFilesOk t = true) :
    loadTableFromFile t.name (saveTableMeta t.columns)
      (some (saveTableData t.rows)) = some t := by
  rw [tableFilesOk, Bool.and_eq_true] at h
  rw [loadTableFromFile, parseMetaLines_enc t.columns h.1]
  simp only []
  rw [loadRows_saveTableData t.rows h.2]

/-- Concrete instantiation of C8 on the two-column sample table. -/
theorem save_load_roundtrip_witness :
    tableFilesOk pkSampleTable = true ∧
    loadTableFromFile pkSampleTable.name (saveTableMeta pkSampleTable.columns)
      (some (saveTableData pkSampleTable.rows)) = some pkSampleTable :=
  ⟨by decide, save_load_roundtrip pkSampleTable (by decide)⟩

/-- A table with a comma inside a cell. -/
def c8CommaTable : TableData :=
  ⟨cpp "t1", [⟨cpp "v", DataType.STRING, false⟩], [[cpp "x,y"]]⟩

/-- The cell `"x,y"` does not survive the files: the loaded table has the
single row split into two cells, so save-then-load is not the identity on
every in-memory table. -/
theorem save_load_comma_counterexample :
    loadTableFromFile c8CommaTable.name (saveTableMeta c8CommaTable.columns)
        (some (saveTableData c8CommaTable.rows)) =
      some ⟨cpp "t1", [⟨cpp "v", DataType.STRING, false⟩],
        [[cpp "x", cpp "y"]]⟩ ∧
    ¬([[cpp "x", cpp "y"]] = c8CommaTable.rows) := by
  constructor
  · decide
  · decide

/-! ## Transactions and rollback (`src/unnamed/part_009` with the DML of
`src/src/server/DMLOperations.cpp`) -/

/-- Log entry types. `INSERT`, `UPDATE_OLD_VALUE` and `DELETE` are the
members of `LogEntryType` in `DatabaseAPI.hpp`; the three transaction
markers are required by `src/unnamed/part_009`, whose extended enum is
not among the repository's files, and are modelled from its usage. -/
inductive LogEntryType where
  | INSERT
  | UPDATE_OLD_VALUE
  | DELETE
  | BEGIN_TRANSACTION
  | COMMIT_TRANSACTION
  | ROLLBACK_TRANSACTION
deriving DecidableEq, Repr

/-- One transaction log record (`DatabaseAPI.hpp`); marker entries carry
an empty table name, empty rows and index `-1`. -/
structure LogEntry where
  transactionId : Nat
  type : LogEntryType
  tableName : CppStr
  oldRow : Row
  newRow : Row
  rowIndex : Int
deriving DecidableEq, Repr

/-- Lookup in the `std::map<std::string, TableData>` of loaded tables. -/
def findTable (tables : List (CppStr × TableData)) (name : CppStr) :
    Option TableData :=
  (tables.find? (fun kv => kv.1 = name)).map (fun kv => kv.2)

/-- In-place mutation of the named table through
`getMutableTableData`. -/
def updateTable (tables : List (CppStr × TableData)) (name : CppStr)
    (f : TableData → TableData) : List (CppStr × TableData) :=
  tables.map (fun kv => if kv.1 = name then (kv.1, f kv.2) else kv)

/-- The fields of `Database::Impl` that the transaction machinery of
`src/unnamed/part_009` touches. -/
structure DbState where
  tables : List (CppStr × TableData)
  inTransaction : Bool
  currentTransactionId : Nat
  nextTransactionId : Nat
  currentTransactionLog : List LogEntry
deriving DecidableEq, Repr

/-- `logOperation`: append to the in-memory log only inside a
transaction. -/
def logOperation (s : DbState) (e : LogEntry) : DbState :=
  if s.inTransaction then
    { s with currentTransactionLog := s.currentTransactionLog ++ [e] }
  else s

/-- `beginTransactionInternal`: refuse when a transaction is active, else
take a fresh id, clear the log and record the begin marker. -/
def beginTransactionInternal (s : DbState) : Option DbState :=
  if s.inTransaction then none
  else
    some (logOperation
      { s with currentTransactionId := s.nextTransactionId,
               nextTransactionId := s.nextTransactionId + 1,
               inTransaction := true,
               currentTransactionLog := [] }
      ⟨s.nextTransactionId, LogEntryType.BEGIN_TRANSACTION, [], [], [], -1⟩)

/-- The row built by `DMLOperations::Impl::insert`
(`DMLOperations.cpp`): a cell per column, the supplied value or the empty
string. -/
def buildRowNamed (t : TableData) (values : List (CppStr × CppStr)) : Row :=
  t.columns.foldl (fun row colDef =>
    match t.getColumnIndex colDef.name with
    | .negSucc _ => row
    | .ofNat i =>
      match assocFind values colDef.name with
      | some v => row.set i v
      | none => row.set i []) (List.replicate t.columns.length [])

/-- `DMLOperations::Impl::insert` on the state: log the INSERT entry, then
append the row. The permission check, orthogonal to rollback, is taken as
granted; a missing table is the thrown `TableNotFoundException`. -/
def dmlInsert (s : DbState) (tableName : CppStr)
    (values : List (CppStr × CppStr)) : Option DbState :=
  match findTable s.tables tableName with
  | none => none
  | some table =>
    let newRow := buildRowNamed table values
    let s2 := logOperation s
      ⟨s.currentTransactionId, LogEntryType.INSERT, tableName, [], newRow, -1⟩
    let tables2 := updateTable s2.tables tableName
      (fun t => { t with rows := t.rows ++ [newRow] })
    some { s2 with tables := tables2 }

/-- The inner update of one row: each `updates` pair lands at its column
index (pairs stand for the `std::map` in its key order). -/
def applyUpdates (t : TableData) (updates : List (CppStr × CppStr))
    (row : Row) : Row :=
  updates.foldl (fun r kv =>
    match t.getColumnIndex kv.1 with
    | .negSucc _ => r
    | .ofNat i => r.set i kv.2) row

/-- Row loop of `DMLOperations::Impl::update`: rows matching the WHERE
clause are rewritten and an `UPDATE_OLD_VALUE` entry with the old row and
its index is logged, in row order. -/
def updateLoop (txid : Nat) (tableName : CppStr) (t : TableData)
    (updates : List (CppStr × CppStr)) (wc : CppStr) :
    List Row → Nat → List Row × List LogEntry
  | [], _ => ([], [])
  | row :: rest, i =>
    let res := updateLoop txid tableName t updates wc rest (i + 1)
    if evaluateCondition row t wc then
      (applyUpdates t updates row :: res.1,
       ⟨txid, LogEntryType.UPDATE_OLD_VALUE, tableName, row, [], (i : Int)⟩ :: res.2)
    else (row :: res.1, res.2)

/-- `DMLOperations::Impl::update` on the state. -/
def dmlUpdate (s : DbState) (tableName : CppStr)
    (updates : List (CppStr × CppStr)) (wc : CppStr) : Option DbState :=
  match findTable s.tables tableName with
  | none => none
  | some table =>
    let res := updateLoop s.currentTransactionId tableName table updates wc
      table.rows 0
    let s2 := res.2.foldl logOperation s
    let tables2 := updateTable s2.tables tableName (fun t => { t with rows := res.1 })
    some { s2 with tables := tables2 }

/-- Row loop of `DMLOperations::Impl::remove`: matching rows are dropped
and logged as `DELETE` entries with their old values, in row order. -/
def removeLoop (txid : Nat) (tableName : CppStr) (t : TableData)
    (wc : CppStr) : List Row → List Row × List LogEntry
  | [] => ([], [])
  | row :: rest =>
    let res := removeLoop txid tableName t wc rest
    if evaluateCondition row t wc then
      (res.1, ⟨txid, LogEntryType.DELETE, tableName, row, [], -1⟩ :: res.2)
    else (row :: res.1, res.2)

/-- `DMLOperations::Impl::remove` on the state. -/
def dmlRemove (s : DbState) (tableName : CppStr) (wc : CppStr) :
    Option DbState :=
  match findTable s.tables tableName with
  | none => none
  | some table =>
    let res := removeLoop s.currentTransactionId tableName table wc table.rows
    let s2 := res.2.foldl logOperation s
    let tables2 := updateTable s2.tables tableName (fun t => { t with rows := res.1 })
    some { s2 with tables := tables2 }

/-- Rows-level effect of undoing one log entry in `rollbackInternal`:
erase the first row equal to an inserted one, re-append a deleted row at
the end, restore an updated row at its recorded index when still in
range; markers change nothing. -/
def rowUndo (e : LogEntry) (rows : List Row) : List Row :=
  match e.type with
  | .INSERT => rows.erase e.newRow
  | .DELETE => rows ++ [e.oldRow]
  | .UPDATE_OLD_VALUE =>
    match e.rowIndex with
    | .ofNat i => if i < rows.length then rows.set i e.oldRow else rows
    | .negSucc _ => rows
  | _ => rows

/-- Table-level undo of one entry. -/
def undoFun (e : LogEntry) (table : TableData) : TableData :=
  { table with rows := rowUndo e table.rows }

/-- One iteration of the rollback loop: entries whose table is not loaded
are skipped. -/
def undoEntry (tabs : List (CppStr × TableData)) (e : LogEntry) :
    List (CppStr × TableData) :=
  match findTable tabs e.tableName with
  | none => tabs
  | some _ => updateTable tabs e.tableName (undoFun e)

/-- `rollbackInternal`: append the rollback marker, then replay the whole
log in reverse through the undo loop, and close the transaction. -/
def rollbackInternal (s : DbState) : Option DbState :=
  if s.inTransaction then
    let rbEntry : LogEntry :=
      ⟨s.currentTransactionId, LogEntryType.ROLLBACK_TRANSACTION, [], [], [], -1⟩
    let tables2 :=
      ((s.currentTransactionLog ++ [rbEntry]).reverse).foldl undoEntry s.tables
    some { s with tables := tables2, currentTransactionLog := [],
                  inTransaction := false, currentTransactionId := 0 }
  else none

/-- One UPDATE statement: table, SET pairs, WHERE clause. -/
structure UpdateOp where
  tableName : CppStr
  updates : List (CppStr × CppStr)
  whereClause : CppStr

/-- A sequence of UPDATE statements inside the transaction. -/
def runUpdates (s : DbState) : List UpdateOp → Option DbState
  | [] => some s
  | op :: rest =>
    match dmlUpdate s op.tableName op.updates op.whereClause with
    | none => none
    | some s2 => runUpdates s2 rest

theorem updateTable_id (tabs : List (CppStr × TableData)) (nm : CppStr) :
    updateTable tabs nm (fun t => t) = tabs := by
  rw [updateTable]
  have h : (fun (kv : CppStr × TableData) =>
      if kv.1 = nm then (kv.1, kv.2) else kv) = fun kv => kv := by
    funext kv
    split <;> rfl
  rw [h, List.map_id']

theorem updateTable_comp (tabs : List (CppStr × TableData)) (nm : CppStr)
    (f g : TableData → TableData) :
    updateTable (updateTable tabs nm f) nm g =
      updateTable tabs nm (fun t => g (f t)) := by
  rw [updateTable, updateTable, updateTable, List.map_map]
  apply List.map_congr_left
  intro kv _
  by_cases h : kv.1 = nm
  · simp [Function.comp_apply, h]
  · simp [Function.comp_apply, h]

theorem updateTable_keys (tabs : List (CppStr × TableData)) (nm : CppStr)
    (f : TableData → TableData) :
    (updateTable tabs nm f).map Prod.fst = tabs.map Prod.fst := by
  rw [updateTable, List.map_map]
  apply List.map_congr_left
  intro kv _
  by_cases h : kv.1 = nm
  · simp [Function.comp_apply, h]
  · simp [Function.comp_apply, h]

theorem findTable_updateTable_self (tabs : List (CppStr × TableData))
    (nm : CppStr) (f : TableData → TableData) :
    findTable (updateTable tabs nm f) nm = (findTable tabs nm).map f := by
  induction tabs with
  | nil => rfl
  | cons kv rest ih =>
    by_cases h : kv.1 = nm
    · rw [updateTable, List.map_cons, if_pos h]
      rw [findTable, findTable]
      rw [List.find?_cons_of_pos _ (by simpa using h),
        List.find?_cons_of_pos _ (by simpa using h)]
      rfl
    · rw [updateTable, List.map_cons, if_neg h]
      rw [findTable, findTable]
      rw [List.find?_cons_of_neg _ (by simpa using h),
        List.find?_cons_of_neg _ (by simpa using h)]
      exact ih

theorem updateTable_not_mem (tabs : List (CppStr × TableData)) (nm : CppStr)
    (f : TableData → TableData) (h : ∀ kv ∈ tabs, kv.1 ≠ nm) :
    updateTable tabs nm f = tabs := by
  rw [updateTable]
  rw [show (fun (kv : CppStr × TableData) =>
      if kv.1 = nm then (kv.1, f kv.2) else kv) = fun kv =>
      if kv.1 = nm then (kv.1, f kv.2) else kv from rfl]
  induction tabs with
  | nil => rfl
  | cons kv rest ih =>
    rw [List.map_cons, if_neg (h kv (List.mem_cons_self kv rest))]
    rw [ih (fun kv2 h2 => h kv2 (List.mem_cons_of_mem kv h2))]

theorem updateTable_congr_unique (tabs : List (CppStr × TableData))
    (nm : CppStr) (F1 F2 : TableData → TableData)
    (hkeys : (tabs.map Prod.fst).Nodup)
    (h : ∀ t, findTable tabs nm = some t → F1 t = F2 t) :
    updateTable tabs nm F1 = updateTable tabs nm F2 := by
  induction tabs with
  | nil => rfl
  | cons kv rest ih =>
    rw [List.map_cons, List.nodup_cons] at hkeys
    by_cases hh : kv.1 = nm
    · have hft : findTable (kv :: rest) nm = some kv.2 := by
        rw [findTable, List.find?_cons_of_pos _ (by simpa using hh)]
        rfl
      have hval := h kv.2 hft
      have hrest : ∀ kv2 ∈ rest, kv2.1 ≠ nm := by
        intro kv2 h2 he
        apply hkeys.1
        rw [hh, ← he]
        exact List.mem_map_of_mem Prod.fst h2
      rw [updateTable, updateTable, List.map_cons, List.map_cons,
        if_pos hh, if_pos hh, hval]
      have h1 := updateTable_not_mem rest nm F1 hrest
      have h2 := updateTable_not_mem rest nm F2 hrest
      rw [updateTable] at h1 h2
      rw [h1, h2]
    · have hft : ∀ t, findTable rest nm = some t → F1 t = F2 t := by
        intro t ht
        apply h
        rw [findTable, List.find?_cons_of_neg _ (by simpa using hh)]
        exact ht
      rw [updateTable, updateTable, List.map_cons, List.map_cons,
        if_neg hh, if_neg hh]
      have := ih hkeys.2 hft
      rw [updateTable, updateTable] at this
      rw [this]

theorem updateTable_restore (tabs : List (CppStr × TableData)) (nm : CppStr)
    (F : TableData → TableData) (hkeys : (tabs.map Prod.fst).Nodup)
    (h : ∀ t, findTable tabs nm = some t → F t = t) :
    updateTable tabs nm F = tabs := by
  rw [updateTable_congr_unique tabs nm F (fun t => t) hkeys h]
  exact updateTable_id tabs nm

theorem undoEntry_marker (tabs : List (CppStr × TableData)) (e : LogEntry)
    (h : e.type = LogEntryType.BEGIN_TRANSACTION ∨
      e.type = LogEntryType.COMMIT_TRANSACTION ∨
      e.type = LogEntryType.ROLLBACK_TRANSACTION) :
    undoEntry tabs e = tabs := by
  rw [undoEntry]
  cases hf : findTable tabs e.tableName with
  | none => rfl
  | some t =>
    have hu : undoFun e = fun t => t := by
      funext tb
      rw [undoFun, rowUndo]
      rcases h with h | h | h <;> rw [h]
    rw [hu]
    exact updateTable_id tabs e.tableName

theorem foldl_undoFun_rows (E : List LogEntry) :
    ∀ (t : TableData),
      E.foldl (fun acc e => undoFun e acc) t =
        { t with rows := E.foldl (fun rs e => rowUndo e rs) t.rows } := by
  induction E with
  | nil =>
    intro t
    rfl
  | cons e rest ih =>
    intro t
    rw [List.foldl_cons, List.foldl_cons, ih (undoFun e t)]
    rfl

theorem foldl_undoEntry_on (E : List LogEntry) :
    ∀ (tabs : List (CppStr × TableData)) (nm : CppStr),
      (∀ e ∈ E, e.tableName = nm) →
      (findTable tabs nm).isSome →
      E.foldl undoEntry tabs =
        updateTable tabs nm (fun t => E.foldl (fun acc e => undoFun e acc) t) := by
  induction E with
  | nil =>
    intro tabs nm _ _
    rw [List.foldl_nil]
    exact (updateTable_id tabs nm).symm
  | cons e rest ih =>
    intro tabs nm hE hfound
    rw [List.foldl_cons]
    simp only [List.foldl_cons]
    have hnm : e.tableName = nm := hE e (List.mem_cons_self e rest)
    have hstep : undoEntry tabs e = updateTable tabs nm (undoFun e) := by
      rw [undoEntry, hnm]
      cases hf : findTable tabs nm with
      | none =>
        rw [hf] at hfound
        cases hfound
      | some t => rfl
    rw [hstep]
    rw [ih (updateTable tabs nm (undoFun e)) nm
      (fun x hx => hE x (List.mem_cons_of_mem e hx))
      (by
        rw [findTable_updateTable_self]
        cases hf : findTable tabs nm with
        | none =>
          rw [hf] at hfound
          cases hfound
        | some t => rfl)]
    rw [updateTable_comp]

theorem set_append_cons (p : List Row) (x v : Row) (r : List Row) :
    (p ++ x :: r).set p.length v = p ++ v :: r := by
  induction p with
  | nil => rfl
  | cons a p2 ih =>
    rw [List.cons_append, List.length_cons, List.set_cons_succ, ih,
      List.cons_append]

theorem updateLoop_undo (txid : Nat) (nm : CppStr) (t : TableData)
    (updates : List (CppStr × CppStr)) (wc : CppStr) :
    ∀ (rows : List Row) (i : Nat) (p : List Row), p.length = i →
      (updateLoop txid nm t updates wc rows i).1.length = rows.length ∧
      ((updateLoop txid nm t updates wc rows i).2.reverse).foldl
          (fun rs e => rowUndo e rs)
          (p ++ (updateLoop txid nm t updates wc rows i).1) = p ++ rows := by
  intro rows
  induction rows with
  | nil =>
    intro i p _
    exact ⟨rfl, rfl⟩
  | cons row rest ih =>
    intro i p hp
    rw [updateLoop]
    by_cases hc : evaluateCondition row t wc = true
    · rw [if_pos hc]
      simp only []
      obtain ⟨ih1, ih2⟩ := ih (i + 1) (p ++ [applyUpdates t updates row])
        (by rw [List.length_append, hp]; rfl)
      constructor
      · rw [List.length_cons, List.length_cons, ih1]
      · rw [List.reverse_cons, List.foldl_append]
        have hassoc : p ++ applyUpdates t updates row ::
            (updateLoop txid nm t updates wc rest (i + 1)).1 =
            (p ++ [applyUpdates t updates row]) ++
            (updateLoop txid nm t updates wc rest (i + 1)).1 := by
          rw [List.append_assoc]
          rfl
        rw [hassoc, ih2]
        rw [List.foldl_cons, List.foldl_nil]
        rw [show ((p ++ [applyUpdates t updates row]) ++ rest : List Row) =
          p ++ applyUpdates t updates row :: rest by rw [List.append_assoc]; rfl]
        rw [rowUndo]
        simp only []
        rw [← hp]
        rw [if_pos (by
          rw [List.length_append, List.length_cons]
          omega)]
        exact set_append_cons p (applyUpdates t updates row) row rest
    · rw [if_neg hc]
      simp only []
      obtain ⟨ih1, ih2⟩ := ih (i + 1) (p ++ [row])
        (by rw [List.length_append, hp]; rfl)
      constructor
      · rw [List.length_cons, List.length_cons, ih1]
      · have hassoc : p ++ row ::
            (updateLoop txid nm t updates wc rest (i + 1)).1 =
            (p ++ [row]) ++ (updateLoop txid nm t updates wc rest (i + 1)).1 := by
          rw [List.append_assoc]
          rfl
        rw [hassoc, ih2, List.append_assoc]
        rfl

theorem foldl_logOperation (E : List LogEntry) :
    ∀ (s : DbState), s.inTransaction = true →
      E.foldl logOperation s =
        { s with currentTransactionLog := s.currentTransactionLog ++ E } := by
  induction E with
  | nil =>
    intro s _
    simp
  | cons e rest ih =>
    intro s hs
    rw [List.foldl_cons]
    have hlog : logOperation s e =
        { s with currentTransactionLog := s.currentTransactionLog ++ [e] } := by
      rw [logOperation, if_pos hs]
    rw [hlog, ih _ (by exact hs)]
    simp

theorem updateLoop_entries (txid : Nat) (nm : CppStr) (t : TableData)
    (updates : List (CppStr × CppStr)) (wc : CppStr) :
    ∀ (rows : List Row) (i : Nat),
      ∀ e ∈ (updateLoop txid nm t updates wc rows i).2, e.tableName = nm := by
  intro rows
  induction rows with
  | nil =>
    intro i e he
    cases he
  | cons row rest ih =>
    intro i e he
    rw [updateLoop] at he
    by_cases hc : evaluateCondition row t wc = true
    · rw [if_pos hc] at he
      simp only [] at he
      rw [List.mem_cons] at he
      rcases he with he | he
      · rw [he]
      · exact ih (i + 1) e he
    · rw [if_neg hc] at he
      simp only [] at he
      exact ih (i + 1) e he

theorem dmlUpdate_undo (s : DbState) (op : UpdateOp) (s2 : DbState)
    (hs : s.inTransaction = true)
    (hkeys : (s.tables.map Prod.fst).Nodup)
    (h : dmlUpdate s op.tableName op.updates op.whereClause = some s2) :
    s2.inTransaction = true ∧
    s2.tables.map Prod.fst = s.tables.map Prod.fst ∧
    ∃ E, s2.currentTransactionLog = s.currentTransactionLog ++ E ∧
      (∀ e ∈ E, e.tableName = op.tableName) ∧
      E.reverse.foldl undoEntry s2.tables = s.tables := by
  rw [dmlUpdate] at h
  cases hf : findTable s.tables op.tableName with
  | none =>
    rw [hf] at h
    cases h
  | some t0 =>
    rw [hf] at h
    simp only [] at h
    rw [foldl_logOperation _ s hs] at h
    cases h
    refine ⟨hs, by simp [updateTable_keys], ?_⟩
    refine ⟨(updateLoop s.currentTransactionId op.tableName t0 op.updates
      op.whereClause t0.rows 0).2, rfl,
      updateLoop_entries _ _ _ _ _ t0.rows 0, ?_⟩
    have hfound : (findTable (updateTable s.tables op.tableName
        (fun t => { t with rows := (updateLoop s.currentTransactionId
          op.tableName t0 op.updates op.whereClause t0.rows 0).1 }))
        op.tableName).isSome := by
      rw [findTable_updateTable_self, hf]
      rfl
    rw [foldl_undoEntry_on _ _ _
      (by
        intro e he
        rw [List.mem_reverse] at he
        exact updateLoop_entries _ _ _ _ _ t0.rows 0 e he)
      hfound]
    rw [updateTable_comp]
    apply updateTable_restore _ _ _ hkeys
    intro t ht
    rw [hf] at ht
    cases ht
    rw [foldl_undoFun_rows]
    obtain ⟨_, hundo⟩ := updateLoop_undo s.currentTransactionId op.tableName
      t0 op.updates op.whereClause t0.rows 0 [] rfl
    rw [show ([] ++ (updateLoop s.currentTransactionId op.tableName t0
      op.updates op.whereClause t0.rows 0).1 : List Row) =
      (updateLoop s.currentTransactionId op.tableName t0 op.updates
        op.whereClause t0.rows 0).1 from rfl] at hundo
    rw [show ([] ++ t0.rows : List Row) = t0.rows from rfl] at hundo
    rw [hundo]

theorem runUpdates_undo :
    ∀ (ops : List UpdateOp) (s s2 : DbState),
      runUpdates s ops = some s2 →
      s.inTransaction = true →
      (s.tables.map Prod.fst).Nodup →
      s2.inTransaction = true ∧
      s2.tables.map Prod.fst = s.tables.map Prod.fst ∧
      ∃ E, s2.currentTransactionLog = s.currentTransactionLog ++ E ∧
        E.reverse.foldl undoEntry s2.tables = s.tables := by
  intro ops
  induction ops with
  | nil =>
    intro s s2 h hs hkeys
    rw [runUpdates] at h
    cases h
    exact ⟨hs, rfl, [], by simp, rfl⟩
  | cons op rest ih =>
    intro s s2 h hs hkeys
    rw [runUpdates] at h
    cases hmid : dmlUpdate s op.tableName op.updates op.whereClause with
    | none =>
      rw [hmid] at h
      cases h
    | some sMid =>
      rw [hmid] at h
      obtain ⟨hin1, hkeys1, E1, hlog1, _, hundo1⟩ :=
        dmlUpdate_undo s op sMid hs hkeys hmid
      obtain ⟨hin2, hkeys2, E2, hlog2, hundo2⟩ := ih sMid s2 h hin1
        (by rw [hkeys1]; exact hkeys)
      refine ⟨hin2, by rw [hkeys2, hkeys1], E1 ++ E2, ?_, ?_⟩
      · rw [hlog2, hlog1, List.append_assoc]
      · rw [List.reverse_append, List.foldl_append, hundo2, hundo1]

theorem evaluateCondition_empty (row : Row) (t : TableData) :
    evaluateCondition row t [] = true :=
  evaluateCondition_nil rfl

theorem removeLoop_spec (txid : Nat) (nm : CppStr) (t : TableData)
    (wc : CppStr) :
    ∀ (rows : List Row),
      (removeLoop txid nm t wc rows).1 =
        rows.filter (fun r => !evaluateCondition r t wc) ∧
      (removeLoop txid nm t wc rows).2 =
        (rows.filter (fun r => evaluateCondition r t wc)).map
          (fun r => ⟨txid, LogEntryType.DELETE, nm, r, [], -1⟩) := by
  intro rows
  induction rows with
  | nil => exact ⟨rfl, rfl⟩
  | cons row rest ih =>
    rw [removeLoop]
    by_cases hc : evaluateCondition row t wc = true
    · rw [if_pos hc]
      simp only []
      constructor
      · rw [List.filter_cons_of_neg (by rw [hc]; decide), ih.1]
      · rw [List.filter_cons_of_pos (by rw [hc]), List.map_cons, ih.2]
    · rw [if_neg hc]
      simp only []
      rw [Bool.not_eq_true] at hc
      constructor
      · rw [List.filter_cons_of_pos (by rw [hc]; rfl), ih.1]
      · rw [List.filter_cons_of_neg (by rw [hc]; decide), ih.2]

theorem foldl_rowUndo_deletes (txid : Nat) (nm : CppStr) :
    ∀ (ds rs : List Row),
      ((ds.map (fun r =>
        (⟨txid, LogEntryType.DELETE, nm, r, [], -1⟩ : LogEntry))).reverse).foldl
        (fun a e => rowUndo e a) rs = rs ++ ds.reverse := by
  intro ds
  induction ds with
  | nil =>
    intro rs
    simp
  | cons d rest ih =>
    intro rs
    rw [List.map_cons, List.reverse_cons, List.foldl_append, ih rs]
    rw [List.foldl_cons, List.foldl_nil]
    rw [show rowUndo ⟨txid, LogEntryType.DELETE, nm, d, [], -1⟩
      (rs ++ rest.reverse) = (rs ++ rest.reverse) ++ [d] from rfl]
    rw [List.reverse_cons, List.append_assoc]

/-- The begin marker entry for the transaction about to start. -/
def beginEntryOf (s0 : DbState) : LogEntry :=
  ⟨s0.nextTransactionId, LogEntryType.BEGIN_TRANSACTION, [], [], [], -1⟩

/-- The state right after a successful `beginTransactionInternal`. -/
def beginState (s0 : DbState) : DbState :=
  { s0 with currentTransactionId := s0.nextTransactionId,
            nextTransactionId := s0.nextTransactionId + 1,
            inTransaction := true,
            currentTransactionLog := [beginEntryOf s0] }

/-- The rollback marker entry `rollbackInternal` logs. -/
def rollbackEntryOf (s : DbState) : LogEntry :=
  ⟨s.currentTransactionId, LogEntryType.ROLLBACK_TRANSACTION, [], [], [], -1⟩

/-- Net effect of rolling back one DELETE statement on its table: the
kept rows, then the deleted rows re-appended in reverse order. -/
def removeRollbackFun (t0 : TableData) (wc : CppStr) : TableData → TableData :=
  fun tb =>
    { tb with rows :=
        tb.rows.filter (fun r => !evaluateCondition r t0 wc) ++
        (tb.rows.filter (fun r => evaluateCondition r t0 wc)).reverse }

theorem beginTransactionInternal_char {s0 s1 : DbState}
    (h : beginTransactionInternal s0 = some s1) :
    s0.inTransaction = false ∧ s1 = beginState s0 := by
  rw [beginTransactionInternal] at h
  by_cases h0 : s0.inTransaction
  · rw [if_pos h0] at h
    cases h
  · rw [if_neg h0] at h
    rw [logOperation, if_pos rfl] at h
    cases h
    exact ⟨by simpa using h0, rfl⟩

theorem rollbackInternal_char {s s3 : DbState} (hin : s.inTransaction = true)
    (h : rollbackInternal s = some s3) :
    s3 = { s with
      tables := ((s.currentTransactionLog ++ [rollbackEntryOf s]).reverse).foldl
        undoEntry s.tables,
      currentTransactionLog := [],
      inTransaction := false,
      currentTransactionId := 0 } := by
  rw [rollbackInternal, if_pos hin] at h
  exact (Option.some.inj h).symm

theorem dmlRemove_char {s : DbState} {nm wc : CppStr} {t0 : TableData}
    {s2 : DbState} (hft : findTable s.tables nm = some t0)
    (hin : s.inTransaction = true) (h : dmlRemove s nm wc = some s2) :
    s2 = { s with
      tables := updateTable s.tables nm (fun t =>
        { t with rows := (removeLoop s.currentTransactionId nm t0 wc t0.rows).1 }),
      currentTransactionLog := s.currentTransactionLog ++
        (removeLoop s.currentTransactionId nm t0 wc t0.rows).2 } := by
  rw [dmlRemove, hft] at h
  simp only [] at h
  rw [foldl_logOperation _ _ hin] at h
  exact (Option.some.inj h).symm

/-- C3: rollback replays the in-memory log in reverse — updated rows are
restored at their recorded indices, deleted rows are re-appended at the
end. Consequently a transaction of UPDATE statements rolls back to
exactly the table state captured before `begin_transaction`, while a
DELETE rolls back to the kept rows followed by the deleted rows in
reverse deletion order, not to the original row order. -/
theorem rollback_reverse_undo (s0 : DbState) :
    (∀ (ops : List UpdateOp) (s1 s2 s3 : DbState),
      (s0.tables.map Prod.fst).Nodup →
      beginTransactionInternal s0 = some s1 →
      runUpdates s1 ops = some s2 →
      rollbackInternal s2 = some s3 →
      s3.tables = s0.tables ∧ s3.inTransaction = false) ∧
    (∀ (nm wc : CppStr) (t0 : TableData) (s1 s2 s3 : DbState),
      (s0.tables.map Prod.fst).Nodup →
      findTable s0.tables nm = some t0 →
      beginTransactionInternal s0 = some s1 →
      dmlRemove s1 nm wc = some s2 →
      rollbackInternal s2 = some s3 →
      s3.tables = updateTable s0.tables nm (removeRollbackFun t0 wc) ∧
      s3.inTransaction = false) := by
  constructor
  · intro ops s1 s2 s3 hkeys hbegin hrun hrb
    obtain ⟨h0, hs1⟩ := beginTransactionInternal_char hbegin
    subst hs1
    obtain ⟨hin2, hkeys2, E, hlog, hundo⟩ :=
      runUpdates_undo ops (beginState s0) s2 hrun rfl hkeys
    have hrb2 := rollbackInternal_char hin2 hrb
    refine ⟨?_, by rw [hrb2]⟩
    rw [hrb2]
    show ((s2.currentTransactionLog ++ [rollbackEntryOf s2]).reverse).foldl
      undoEntry s2.tables = s0.tables
    rw [hlog]
    rw [show (beginState s0).currentTransactionLog = [beginEntryOf s0] from rfl]
    rw [List.reverse_append, List.reverse_append]
    simp only [List.reverse_cons, List.reverse_nil, List.nil_append,
      List.singleton_append]
    rw [List.foldl_cons]
    rw [undoEntry_marker _ _ (Or.inr (Or.inr rfl))]
    rw [List.foldl_append, hundo]
    rw [List.foldl_cons, List.foldl_nil]
    rw [show (beginState s0).tables = s0.tables from rfl]
    exact undoEntry_marker _ _ (Or.inl rfl)
  · intro nm wc t0 s1 s2 s3 hkeys hft hbegin hrem hrb
    obtain ⟨h0, hs1⟩ := beginTransactionInternal_char hbegin
    subst hs1
    have hrem2 := dmlRemove_char (s := beginState s0) hft rfl hrem
    have hrb2 := rollbackInternal_char (by rw [hrem2]; rfl) hrb
    refine ⟨?_, by rw [hrb2]⟩
    rw [hrb2, hrem2]
    show ((beginEntryOf s0 ::
        (removeLoop s0.nextTransactionId nm t0 wc t0.rows).2 ++
        [(⟨s0.nextTransactionId, LogEntryType.ROLLBACK_TRANSACTION,
          [], [], [], -1⟩ : LogEntry)]).reverse).foldl undoEntry
      (updateTable s0.tables nm (fun t =>
        { t with rows := (removeLoop s0.nextTransactionId nm t0 wc t0.rows).1 }))
      = _
    obtain ⟨hkept, hdel⟩ := removeLoop_spec s0.nextTransactionId nm t0 wc t0.rows
    rw [List.reverse_append]
    simp only [List.reverse_cons, List.reverse_nil, List.nil_append,
      List.singleton_append]
    rw [List.foldl_cons]
    rw [undoEntry_marker _ _ (Or.inr (Or.inr rfl))]
    rw [List.foldl_append]
    have hfound : (findTable (updateTable s0.tables nm
        (fun t => { t with rows :=
          (removeLoop s0.nextTransactionId nm t0 wc t0.rows).1 })) nm).isSome := by
      rw [findTable_updateTable_self, hft]
      rfl
    rw [foldl_undoEntry_on _ _ nm
      (by
        intro e he
        rw [List.mem_reverse, hdel, List.mem_map] at he
        obtain ⟨r, _, hr⟩ := he
        rw [← hr])
      hfound]
    rw [updateTable_comp]
    rw [List.foldl_cons, List.foldl_nil]
    rw [updateTable_congr_unique s0.tables nm _ (removeRollbackFun t0 wc) hkeys
      (by
        intro t ht
        rw [hft] at ht
        cases ht
        rw [foldl_undoFun_rows]
        simp only []
        rw [hkept, hdel, foldl_rowUndo_deletes]
        rfl)]
    exact undoEntry_marker _ _ (Or.inl rfl)

/-- A one-column, two-row table for the rollback scenarios. -/
def c3Table : TableData :=
  ⟨cpp "t", [⟨cpp "v", DataType.STRING, false⟩], [[cpp "a"], [cpp "b"]]⟩

/-- Initial server state: one loaded table, no transaction. -/
def c3S0 : DbState := ⟨[(cpp "t", c3Table)], false, 0, 1, []⟩

/-- State after `begin_transaction`. -/
def c3S1W : DbState := beginState c3S0

/-- An UPDATE of every row that changes nothing (empty SET list, empty
WHERE). -/
def c3UpdOp : UpdateOp := ⟨cpp "t", [], []⟩

/-- The two UPDATE_OLD_VALUE entries the no-op UPDATE logs. -/
def c3E0 : LogEntry :=
  ⟨1, LogEntryType.UPDATE_OLD_VALUE, cpp "t", [cpp "a"], [], 0⟩

/-- Entry for the second row. -/
def c3E1 : LogEntry :=
  ⟨1, LogEntryType.UPDATE_OLD_VALUE, cpp "t", [cpp "b"], [], 1⟩

/-- State after the UPDATE. -/
def c3S2W : DbState :=
  ⟨[(cpp "t", c3Table)], true, 1, 2, [beginEntryOf c3S0, c3E0, c3E1]⟩

/-- State after rolling the UPDATE transaction back. -/
def c3S3W : DbState := ⟨[(cpp "t", c3Table)], false, 0, 2, []⟩

/-- The two DELETE entries of deleting every row. -/
def c3D0 : LogEntry := ⟨1, LogEntryType.DELETE, cpp "t", [cpp "a"], [], -1⟩

/-- Entry for the second deleted row. -/
def c3D1 : LogEntry := ⟨1, LogEntryType.DELETE, cpp "t", [cpp "b"], [], -1⟩

/-- The table emptied by the DELETE. -/
def c3TableEmpty : TableData :=
  ⟨cpp "t", [⟨cpp "v", DataType.STRING, false⟩], []⟩

/-- State after DELETE of every row. -/
def c3R2W : DbState :=
  ⟨[(cpp "t", c3TableEmpty)], true, 1, 2, [beginEntryOf c3S0, c3D0, c3D1]⟩

/-- The table rollback rebuilds: both rows back, in reverse order. -/
def c3TableRev : TableData :=
  ⟨cpp "t", [⟨cpp "v", DataType.STRING, false⟩], [[cpp "b"], [cpp "a"]]⟩

/-- State after rolling the DELETE transaction back. -/
def c3R3W : DbState := ⟨[(cpp "t", c3TableRev)], false, 0, 2, []⟩

theorem c3_updateLoop_eval :
    updateLoop 1 (cpp "t") c3Table [] [] [[cpp "a"], [cpp "b"]] 0 =
      ([[cpp "a"], [cpp "b"]], [c3E0, c3E1]) := by
  have h1 : updateLoop 1 (cpp "t") c3Table [] [] [[cpp "b"]] 1 =
      ([[cpp "b"]], [c3E1]) := by
    rw [updateLoop]
    rw [if_pos (evaluateCondition_empty _ _)]
    rfl
  rw [updateLoop]
  rw [if_pos (evaluateCondition_empty _ _)]
  rw [show updateLoop 1 (cpp "t") c3Table [] [] [[cpp "b"]] (0 + 1) =
    ([[cpp "b"]], [c3E1]) from h1]
  rfl

theorem c3_runUpdates_eval : runUpdates c3S1W [c3UpdOp] = some c3S2W := by
  have hdml : dmlUpdate c3S1W (cpp "t") [] [] = some c3S2W := by
    rw [dmlUpdate]
    rw [show findTable c3S1W.tables (cpp "t") = some c3Table from rfl]
    simp only []
    rw [show updateLoop c3S1W.currentTransactionId (cpp "t") c3Table [] []
      c3Table.rows 0 = ([[cpp "a"], [cpp "b"]], [c3E0, c3E1]) from c3_updateLoop_eval]
    rfl
  rw [runUpdates]
  rw [show dmlUpdate c3S1W c3UpdOp.tableName c3UpdOp.updates c3UpdOp.whereClause =
    some c3S2W from hdml]
  rfl

theorem c3_dmlRemove_eval : dmlRemove c3S1W (cpp "t") [] = some c3R2W := by
  have hloop : removeLoop 1 (cpp "t") c3Table [] [[cpp "a"], [cpp "b"]] =
      ([], [c3D0, c3D1]) := by
    have h1 : removeLoop 1 (cpp "t") c3Table [] [[cpp "b"]] = ([], [c3D1]) := by
      rw [removeLoop]
      rw [if_pos (evaluateCondition_empty _ _)]
      rfl
    rw [removeLoop]
    rw [if_pos (evaluateCondition_empty _ _)]
    rw [h1]
    rfl
  rw [dmlRemove]
  rw [show findTable c3S1W.tables (cpp "t") = some c3Table from rfl]
  simp only []
  rw [show removeLoop c3S1W.currentTransactionId (cpp "t") c3Table []
    c3Table.rows = ([], [c3D0, c3D1]) from hloop]
  rfl

/-- Concrete instantiation of C3: a no-op UPDATE transaction rolls back to
the original state, and a DELETE-all transaction rolls back to the
characterized reordered state. -/
theorem rollback_reverse_undo_witness :
    (beginTransactionInternal c3S0 = some c3S1W ∧
     runUpdates c3S1W [c3UpdOp] = some c3S2W ∧
     rollbackInternal c3S2W = some c3S3W ∧
     c3S3W.tables = c3S0.tables ∧ c3S3W.inTransaction = false) ∧
    (findTable c3S0.tables (cpp "t") = some c3Table ∧
     dmlRemove c3S1W (cpp "t") [] = some c3R2W ∧
     rollbackInternal c3R2W = some c3R3W ∧
     c3R3W.tables = updateTable c3S0.tables (cpp "t")
       (removeRollbackFun c3Table []) ∧
     c3R3W.inTransaction = false) := by
  have hbegin : beginTransactionInternal c3S0 = some c3S1W := by decide
  have hrbU : rollbackInternal c3S2W = some c3S3W := by decide
  have hrbR : rollbackInternal c3R2W = some c3R3W := by decide
  refine ⟨⟨hbegin, c3_runUpdates_eval, hrbU, ?_⟩,
    ⟨by decide, c3_dmlRemove_eval, hrbR, ?_⟩⟩
  · exact (rollback_reverse_undo c3S0).1 [c3UpdOp] c3S1W c3S2W c3S3W
      (by decide) hbegin c3_runUpdates_eval hrbU
  · exact (rollback_reverse_undo c3S0).2 (cpp "t") [] c3Table c3S1W c3R2W c3R3W
      (by decide) (by decide) hbegin c3_dmlRemove_eval hrbR

/-- Rolling back a DELETE of the rows `[a], [b]` yields the rows
`[b], [a]`: the in-memory state after rollback differs from the state
captured before `begin_transaction`, refuting the claim as stated. -/
theorem rollback_does_not_restore_state :
    beginTransactionInternal c3S0 = some c3S1W ∧
    dmlRemove c3S1W (cpp "t") [] = some c3R2W ∧
    rollbackInternal c3R2W = some c3R3W ∧
    findTable c3S0.tables (cpp "t") = some c3Table ∧
    c3Table.rows = [[cpp "a"], [cpp "b"]] ∧
    findTable c3R3W.tables (cpp "t") = some c3TableRev ∧
    c3TableRev.rows = [[cpp "b"], [cpp "a"]] ∧
    ¬(c3R3W.tables = c3S0.tables) := by
  refine ⟨by decide, c3_dmlRemove_eval, by decide, by decide, rfl,
    by decide, rfl, by decide⟩
